import Mathlib

/-!
Shallow embedding of the Precept/Rigr Requirement Index & Deep Validation
Engine (TypeScript) in Lean 4, together with theorems settling the frozen
claims about its specification.

Conventions of the embedding:
* JS `Map`s and plain objects used as dictionaries become association lists
  (`List (String × α)`) preserving insertion order, with `aset` modelling
  `Map.set` (replace in place, else append) and `alookup` modelling `Map.get`.
* JS `Set`s become duplicate-free lists in insertion order (`addUnique`).
* JS numbers used as counts/percentages become `Nat`; `Math.round(x)` on a
  ratio `c/t * 100` is modelled exactly on rationals as `(200*c + t) / (2*t)`
  (floor division), i.e. round-half-up.
* Recursive DFS procedures become fuel-indexed state-passing functions; the
  fuel passed by all entry points (`number of records + 1`) strictly exceeds
  the maximal recursion depth, so the fuel-exhausted branch is unreachable.
-/

namespace Precept

/-- Severity levels (`ValidationSeverity` enum of the deep-validation module). -/
inductive ValidationSeverity where
  | BLOCKER
  | HIGH
  | MEDIUM
  | LOW
  | INFO
deriving DecidableEq, Repr

/-- Source location `{file, line}` of a record (provenance, reporting only). -/
structure Location where
  file : String
  line : Nat
deriving DecidableEq, Repr

/-- `RequirementObject`: one parsed requirement-like record (from `types.ts`,
whose shape is pinned by the unit tests and the requirements document):
id, type, optional level/status, title, description, links keyed by
link-type, string metadata (including the optional `priority` key),
location, optional baseline tag. -/
structure RequirementObject where
  id : String
  type : String
  level : Option String := none
  title : String := ""
  description : String := ""
  status : Option String := none
  links : List (String × List String) := []
  metadata : List (String × String) := []
  location : Location := ⟨"", 1⟩
  baseline : Option String := none
deriving DecidableEq, Repr

/-- `Map.get` on an insertion-ordered association list. -/
def alookup {α : Type} : List (String × α) → String → Option α
  | [], _ => none
  | (k, v) :: rest, key => if k = key then some v else alookup rest key

/-- `Map.set`: replace the value at an existing key in place, else append. -/
def aset {α : Type} : List (String × α) → String → α → List (String × α)
  | [], key, v => [(key, v)]
  | (k, w) :: rest, key, v =>
    if k = key then (key, v) :: rest else (k, w) :: aset rest key v

/-- `Array.prototype.includes` on a list of strings. -/
def includesS : List String → String → Bool
  | [], _ => false
  | y :: rest, x => if y = x then true else includesS rest x

/-- `Set.add`: append the element unless already present. -/
def addUnique (acc : List String) (x : String) : List String :=
  if includesS acc x then acc else acc ++ [x]

/-- Insertion-ordered deduplication (building a JS `Set` from a list). -/
def dedupe (l : List String) : List String := l.foldl addUnique []

/-- `Set.delete` on the list model of a JS `Set`. -/
def removeAllS (l : List String) (x : String) : List String :=
  l.filter (fun y => decide (y ≠ x))

/-- `Array.prototype.indexOf` (`none` models JS `-1`). -/
def indexOfS : List String → String → Option Nat
  | [], _ => none
  | y :: rest, x =>
    if y = x then some 0 else
      match indexOfS rest x with
      | some i => some (i + 1)
      | none => none

/-- Flatten all outgoing link target lists of a record, in link-type order
(`Object.values(req.links)` concatenated). -/
def flattenLinks (r : RequirementObject) : List String :=
  r.links.foldr (fun p acc => p.2 ++ acc) []

/-- JS `String.prototype.toLowerCase`, modelled character-wise (kernel-
computable, unlike `String.toLower`'s iterator loop). -/
def toLowerS (s : String) : String :=
  String.mk (s.toList.map Char.toLower)

/-- `req.metadata.priority || 'medium'` (JS `||`: absent or empty string
falls back to `"medium"`). -/
def priorityOf (r : RequirementObject) : String :=
  match alookup r.metadata "priority" with
  | none => "medium"
  | some p => if p = "" then "medium" else p

/-- `Object.values(req.links).some(ids => ids.length > 0)`. -/
def hasAnyLink (r : RequirementObject) : Bool :=
  r.links.any (fun p => !p.2.isEmpty)

/-- Floor of the base-2 logarithm by fueled halving (structural in the
fuel so the kernel can evaluate it; only `log2 n` steps ever execute). -/
def log2fuel : Nat → Nat → Nat
  | 0, _ => 0
  | fuel + 1, n => if n ≤ 1 then 0 else log2fuel fuel (n / 2) + 1

/-- `nlog2 n` is the floor of the base-2 logarithm of `n`, for `n ≥ 1`. -/
def nlog2 (n : Nat) : Nat := log2fuel n n

/-- Round the rational `a / b` to the nearest integer, ties to even — the
rounding IEEE-754 applies to every inexact arithmetic result. -/
def rne (a b : Nat) : Nat :=
  let q := a / b
  let r := a % b
  if 2 * r < b then q
  else if b < 2 * r then q + 1
  else if q % 2 = 0 then q else q + 1

/-- Normalized core of `fl53`: given `N` with `b < 2 ^ N` and the bit
position `l` of `a * 2 ^ N / b`, scale `a / b` so that the value handed to
`rne` lies in `[2 ^ 52, 2 ^ 53)`, keeping 53 significant bits. The result
is a dyadic pair `(n, d)` of value `n / d` with `d` a power of two. -/
def fl53Core (a b N l : Nat) : Nat × Nat :=
  if N + 52 ≤ l then
    (rne a (b * 2 ^ (l - N - 52)) * 2 ^ (l - N - 52), 1)
  else
    (rne (a * 2 ^ (N + 52 - l)) b, 2 ^ (N + 52 - l))

/-- Round the nonnegative rational `a / b` to 53 significant bits,
round-to-nearest ties-to-even: IEEE-754 binary64 with an unbounded
exponent, which agrees with real binary64 arithmetic whenever no overflow
or underflow occurs — true of every value these percentage computations
can produce. -/
def fl53 (a b : Nat) : Nat × Nat :=
  if a = 0 ∨ b = 0 then (0, 1)
  else fl53Core a b (nlog2 b + 1) (nlog2 ((a * 2 ^ (nlog2 b + 1)) / b))

/-- `Math.round((covered / total) * 100)` for `total > 0`, as IEEE-754
binary64 doubles compute it: the double division `covered / total` (both
operands are list lengths, hence exactly representable), the double
multiplication by 100, then `Math.round` — which ECMAScript defines as
the nearest integer to the exact value of its double argument, ties
toward positive infinity, here `⌊n / d + 1 / 2⌋ = (2n + d) / (2d)` on the
dyadic result. -/
def jsRoundPct (covered total : Nat) : Nat :=
  let p1 := fl53 covered total
  let p2 := fl53 (100 * p1.1) p1.2
  (2 * p2.1 + p2.2) / (2 * p2.2)

/-! ## Modelled helpers of the missing `deepValidation` module

The module `src/validation/deepValidation.ts` itself is not among the
provided sources; only its unit tests, its type names and its callers are.
The helpers below are modelled from the spec and pinned by those tests. -/

/-- Modelled from the spec: `getAllOutgoingLinks` of the missing
`deepValidation` module — all outgoing link targets of a record across all
link-types, in order (its unit tests pin the flattened-concatenation
behaviour). -/
def getAllOutgoingLinks (r : RequirementObject) : List String :=
  flattenLinks r

/-- Modelled from the spec: `getAllIncomingLinks` of the missing
`deepValidation` module — the ids of the requirements that have a link to
the target id, in input order (its unit tests describe it as "find all
requirements linking to target"). -/
def getAllIncomingLinks (reqs : List RequirementObject) (targetId : String) :
    List String :=
  (reqs.filter (fun r => includesS (getAllOutgoingLinks r) targetId)).map
    (fun r => r.id)

/-- `requirements.find(r => r.id === id)` (`getRequirementById` of the
missing `deepValidation` module; first match wins). -/
def getRequirementById : List RequirementObject → String → Option RequirementObject
  | [], _ => none
  | r :: rest, id => if r.id = id then some r else getRequirementById rest id

/-- Modelled from the spec: `getTypePrefix` of the missing `deepValidation`
module — the leading alphabetic prefix of an id (its unit tests pin
`REQ001 ↦ REQ`, `REQ_001 ↦ REQ`, `123 ↦ ""`, `"" ↦ ""`). -/
def getTypePrefix (id : String) : String :=
  String.mk (id.toList.takeWhile Char.isAlpha)

/-- The typed-edge graph `node -> linkType -> [node]` of the Graph Adapter.
Modelled from the spec: `buildGraph` of the missing `deepValidation`
module — a pure function of the records, one entry per record in input
order (pinned by its unit tests: every record gets a node, holding exactly
its own link map). -/
def buildGraph (reqs : List RequirementObject) :
    List (String × List (String × List String)) :=
  reqs.foldl (fun g r => aset g r.id r.links) []

/-! ## `utils/graphAnalysis.ts` -/

namespace GraphAnalysis

/-- Mutable state of the DFS in `graphAnalysis.detectCircularDependencies`:
`visited`, `recursionStack` (a JS `Set`), the current `path`, and the
accumulated raw cycles. -/
structure DfsState where
  visited : List String
  recStack : List String
  path : List String
  cycles : List (List String)
deriving Repr

/-- The recursive `dfs(nodeId)` of `graphAnalysis.detectCircularDependencies`
(fuel-indexed and structurally recursive on the fuel; the entry point passes
more fuel than the recursion depth can reach). The
`for (const neighbor of neighbors)` loop has no early exit and is a fold. -/
def gaDfs (g : List (String × List String)) :
    Nat → String → DfsState → DfsState
  | 0, _, st => st
  | fuel + 1, nodeId, st =>
    let st := { st with
      visited := addUnique st.visited nodeId,
      recStack := addUnique st.recStack nodeId,
      path := st.path ++ [nodeId] }
    let neighbors := (alookup g nodeId).getD []
    let st := neighbors.foldl
      (fun st nb =>
        if includesS st.visited nb then
          if includesS st.recStack nb then
            match indexOfS st.path nb with
            | some i => { st with cycles := st.cycles ++ [st.path.drop i ++ [nb]] }
            | none => st
          else st
        else
          if (alookup g nb).isSome then gaDfs g fuel nb st else st)
      st
    { st with
      path := st.path.dropLast,
      recStack := removeAllS st.recStack nodeId }

/-- Lexicographic code-unit comparison on character lists (the JS string
`<` operator). -/
def ltChars : List Char → List Char → Bool
  | [], [] => false
  | [], _ :: _ => true
  | _ :: _, [] => false
  | c :: cs, d :: ds =>
    if c < d then true else if d < c then false else ltChars cs ds

/-- JS `a < b` on strings: lexicographic by code unit. -/
def ltS (a b : String) : Bool := ltChars a.toList b.toList

/-- First index of the lexicographically smallest element (the `minIndex`
scan of `normalizeCycle`). -/
def minIndexAux : List String → String → Nat → Nat → Nat
  | [], _, _, best => best
  | x :: rest, cur, i, best =>
    if ltS x cur then minIndexAux rest x (i + 1) i
    else minIndexAux rest cur (i + 1) best

/-- Index of the minimum element of a nonempty list (0 for `[]`). -/
def minIndexOf : List String → Nat
  | [] => 0
  | x :: rest => minIndexAux rest x 1 0

/-- `normalizeCycle`: drop the repeated closing node, then rotate so the
cycle starts at its lexicographically smallest id. -/
def normalizeCycle (cycle : List String) : List String :=
  if cycle.length ≤ 1 then cycle
  else
    let clean := if cycle.head? = cycle.getLast? then cycle.dropLast else cycle
    let minIndex := minIndexOf clean
    clean.drop minIndex ++ clean.take minIndex

/-- The per-record adjacency map built at the top of
`graphAnalysis.detectCircularDependencies` (all link-types flattened). -/
def buildAdjacency (reqs : List RequirementObject) :
    List (String × List String) :=
  reqs.foldl (fun g r => aset g r.id (flattenLinks r)) []

/-- Deduplication of raw cycles by the canonical key
`normalizeCycle(cycle).join('->')` (the `seenCycles` fold). -/
def dedupCycles (cycles : List (List String)) : List (List String) :=
  (cycles.foldl
    (fun (acc : List (List String) × List String) cycle =>
      let normalized := normalizeCycle cycle
      let key := String.intercalate "->" normalized
      if includesS acc.2 key then acc
      else (acc.1 ++ [normalized], acc.2 ++ [key]))
    ([], [])).1

/-- `graphAnalysis.detectCircularDependencies`: DFS from every unvisited
record, collecting back-edge cycles, then canonicalizing and deduplicating. -/
def detectCircularDependencies (reqs : List RequirementObject) :
    List (List String) :=
  let g := buildAdjacency reqs
  let st := reqs.foldl
    (fun st r =>
      if includesS st.visited r.id then st
      else gaDfs g (reqs.length + 1) r.id st)
    ⟨[], [], [], []⟩
  dedupCycles st.cycles

/-- Result record of `graphAnalysis.calculateCoverage`. -/
structure CoverageStats where
  total : Nat
  withLinks : Nat
  percentage : Nat
deriving DecidableEq, Repr

/-- `graphAnalysis.calculateCoverage`: records with at least one outgoing
link over all records, as a rounded percentage (`0` when `total = 0`). -/
def calculateCoverage (reqs : List RequirementObject) : CoverageStats :=
  let total := reqs.length
  let withLinks := (reqs.filter (fun r => hasAnyLink r)).length
  let percentage := if total > 0 then jsRoundPct withLinks total else 0
  ⟨total, withLinks, percentage⟩

end GraphAnalysis

/-! ## Deep-validation configuration (`DeepValidationConfig`) -/

/-- Cycle-length → severity table (`config.cycleSeverity`). -/
structure CycleSeverityConfig where
  length2 : ValidationSeverity
  length3_5 : ValidationSeverity
  length6plus : ValidationSeverity
deriving DecidableEq, Repr

/-- One hierarchical-coverage rule `{fromTypes, toTypes, threshold}`. -/
structure HierarchicalRule where
  fromTypes : List String
  toTypes : List String
  threshold : Nat
deriving DecidableEq, Repr

/-- Flags of `config.statusConsistency`. -/
structure StatusConsistencyConfig where
  enforceApprovedChain : Bool
  enforceImplementedChain : Bool
deriving DecidableEq, Repr

/-- Flags of `config.baselineStability`. -/
structure BaselineStabilityConfig where
  requireApproved : Bool
  requireDownstreamBaselined : Bool
deriving DecidableEq, Repr

/-- Priority → severity table for true orphans (`config.orphanSeverity`). -/
structure OrphanSeverityConfig where
  critical : ValidationSeverity
  high : ValidationSeverity
  medium : ValidationSeverity
  low : ValidationSeverity
deriving DecidableEq, Repr

/-- Per-priority coverage thresholds (`config.priorityWeightedCoverage`). -/
structure PriorityThresholds where
  critical : Nat
  high : Nat
  medium : Nat
  low : Nat
deriving DecidableEq, Repr

/-- `DeepValidationConfig` (declared in the missing `deepValidation` module;
field shapes are pinned by its consumers and unit tests). -/
structure DeepValidationConfig where
  cycleSeverity : CycleSeverityConfig
  hierarchicalCoverage : List (String × HierarchicalRule)
  priorityWeightedCoverage : PriorityThresholds
  statusConsistency : StatusConsistencyConfig
  baselineStability : BaselineStabilityConfig
  orphanSeverity : OrphanSeverityConfig
deriving DecidableEq, Repr

/-- Modelled from the spec: `DEFAULT_DEEP_VALIDATION_CONFIG` of the missing
`deepValidation` module. Its unit tests pin `cycleSeverity = ⟨HIGH, MEDIUM,
LOW⟩` and `priorityWeightedCoverage.critical = 100`; the remaining default
priority thresholds follow the spec's per-bucket targets (95/85/70) and the
default hierarchical rules follow the spec's STK→SYS→DSG→TST chain with
threshold 80. -/
def DEFAULT_DEEP_VALIDATION_CONFIG : DeepValidationConfig where
  cycleSeverity :=
    { length2 := .HIGH, length3_5 := .MEDIUM, length6plus := .LOW }
  hierarchicalCoverage :=
    [("satisfies", ⟨["stakeholder_requirement"], ["system_requirement"], 80⟩),
     ("implements", ⟨["system_requirement"], ["design_element"], 80⟩),
     ("tests", ⟨["design_element"], ["test_parameter"], 80⟩)]
  priorityWeightedCoverage :=
    { critical := 100, high := 95, medium := 85, low := 70 }
  statusConsistency :=
    { enforceApprovedChain := true, enforceImplementedChain := true }
  baselineStability :=
    { requireApproved := true, requireDownstreamBaselined := true }
  orphanSeverity :=
    { critical := .HIGH, high := .MEDIUM, medium := .MEDIUM, low := .LOW }

/-! ## `validation/circularDependencyDetector.ts` -/

namespace CircularDependencyDetector

/-- One reported circular dependency (`CircularDependency`). -/
structure CircularDependency where
  cycle : List String
  length : Nat
  severity : ValidationSeverity
  linkTypes : List String
deriving DecidableEq, Repr

/-- Mutable state of Tarjan's algorithm in
`findStronglyConnectedComponents`. -/
structure TarjanState where
  indices : List (String × Nat)
  lowLinks : List (String × Nat)
  onStack : List String
  stack : List String
  index : Nat
  sccs : List (List String)
deriving Repr

/-- The unlabeled neighbor set of a node: all targets over all link-types,
deduplicated in insertion order (the local `neighbors` `Set`). -/
def neighborsOf (g : List (String × List (String × List String)))
    (node : String) : List String :=
  dedupe (((alookup g node).getD []).foldr (fun p acc => p.2 ++ acc) [])

/-- The `do { w = stack.pop(); ... } while (w !== node)` loop closing an
SCC: returns the popped component and the remaining stack. -/
def popUntil : List String → String → List String × List String
  | [], _ => ([], [])
  | w :: rest, node =>
    if w = node then ([w], rest)
    else
      let (scc, rest') := popUntil rest node
      (w :: scc, rest')

/-- The recursive `strongConnect(node)` of Tarjan's algorithm (fuel-indexed
and structurally recursive on the fuel; entry points pass more fuel than
the recursion depth). The `for (const neighbor of neighbors)` loop has no
early exit and is a fold. -/
def strongConnect (g : List (String × List (String × List String))) :
    Nat → String → TarjanState → TarjanState
  | 0, _, st => st
  | fuel + 1, node, st =>
    let st := { st with
      indices := aset st.indices node st.index,
      lowLinks := aset st.lowLinks node st.index,
      index := st.index + 1,
      stack := node :: st.stack,
      onStack := addUnique st.onStack node }
    let st := (neighborsOf g node).foldl
      (fun st nb =>
        if (alookup st.indices nb).isNone then
          let st := strongConnect g fuel nb st
          let lv := min ((alookup st.lowLinks node).getD 0)
            ((alookup st.lowLinks nb).getD 0)
          { st with lowLinks := aset st.lowLinks node lv }
        else if includesS st.onStack nb then
          let lv := min ((alookup st.lowLinks node).getD 0)
            ((alookup st.indices nb).getD 0)
          { st with lowLinks := aset st.lowLinks node lv }
        else st)
      st
    if alookup st.lowLinks node = alookup st.indices node then
      let (scc, rest) := popUntil st.stack node
      { st with
        stack := rest,
        onStack := scc.foldl removeAllS st.onStack,
        sccs := st.sccs ++ [scc] }
    else st

/-- Ample fuel for a Tarjan run: number of nodes plus total number of link
targets (an upper bound on every node the recursion can ever reach),
plus one. -/
def tarjanFuel (g : List (String × List (String × List String))) : Nat :=
  g.foldl (fun n p => n + p.2.foldl (fun m q => m + q.2.length) 0)
    g.length + 1

/-- `findStronglyConnectedComponents`: run `strongConnect` from every
not-yet-indexed node, in graph order. -/
def findStronglyConnectedComponents
    (g : List (String × List (String × List String))) : List (List String) :=
  (g.foldl
    (fun st p =>
      if (alookup st.indices p.1).isNone then strongConnect g (tarjanFuel g) p.1 st
      else st)
    ⟨[], [], [], [], 0, []⟩).sccs

/-- Mutable state of the DFS in `findCyclePath`. -/
structure FcpState where
  visited : List String
  path : List String
deriving Repr

/-- The recursive `dfs(node, target)` of `findCyclePath` (fuel-indexed and
structurally recursive on the fuel). The neighbor loop's early `return true`
is modelled by a fold whose boolean component, once set, skips the
remaining iterations. -/
def fcpDfs (g : List (String × List (String × List String)))
    (sccSet : List String) (target : String) :
    Nat → String → FcpState → Bool × FcpState
  | 0, _, st => (false, st)
  | fuel + 1, node, st =>
    let st := { st with
      visited := addUnique st.visited node,
      path := st.path ++ [node] }
    let res := (neighborsOf g node).foldl
      (fun (res : Bool × FcpState) nb =>
        if res.1 then res
        else
          let st := res.2
          if !includesS sccSet nb then (false, st)
          else if nb = target ∧ st.path.length > 1 then
            (true, { st with path := st.path ++ [nb] })
          else if !includesS st.visited nb then fcpDfs g sccSet target fuel nb st
          else (false, st))
      (false, st)
    match res with
    | (true, st) => (true, st)
    | (false, st) => (false, { st with path := st.path.dropLast })

/-- `findCyclePath`: recover one concrete cycle inside an SCC by DFS from
its first node; fall back to the raw SCC when the path comes back empty. -/
def findCyclePath (scc : List String)
    (g : List (String × List (String × List String))) : List String :=
  match scc with
  | [] => scc
  | startNode :: _ =>
    let (_, st) := fcpDfs g scc startNode (scc.length + 1) startNode ⟨[], []⟩
    if st.path.length > 0 then st.path else scc

/-- Consecutive pairs of a list (the `for (let i = 0; i < cycle.length - 1)`
edge walk). -/
def consecutivePairs : List String → List (String × String)
  | a :: b :: rest => (a, b) :: consecutivePairs (b :: rest)
  | _ => []

/-- `getCycleLinkTypes`: the set of link-type names traversed along the
cycle, in discovery order. -/
def getCycleLinkTypes (cycle : List String)
    (g : List (String × List (String × List String))) : List String :=
  (consecutivePairs cycle).foldl
    (fun acc pr =>
      match alookup g pr.1 with
      | none => acc
      | some edges =>
        edges.foldl
          (fun acc e => if includesS e.2 pr.2 then addUnique acc e.1 else acc)
          acc)
    []

/-- `determineCycleSeverity`: severity from the configured cycle-length
table. -/
def determineCycleSeverity (length : Nat) (config : DeepValidationConfig) :
    ValidationSeverity :=
  if length ≤ 2 then config.cycleSeverity.length2
  else if length ≤ 5 then config.cycleSeverity.length3_5
  else config.cycleSeverity.length6plus

/-- The body of the per-SCC loop of `detectCircularDependencies`: an SCC of
size > 1 contributes one recovered cycle (its reported `length` dropping the
repeated closing node, its severity computed — as in the source — from the
raw path length); a size-1 SCC contributes a `[node, node]` cycle of length
1 and hard-coded HIGH severity when the node has a true self-loop. -/
def detectStep (graph : List (String × List (String × List String)))
    (config : DeepValidationConfig) (cycles : List CircularDependency)
    (scc : List String) : List CircularDependency :=
  if scc.length > 1 then
    let cycle := findCyclePath scc graph
    let linkTypes := getCycleLinkTypes cycle graph
    let severity := determineCycleSeverity cycle.length config
    cycles ++ [⟨cycle, cycle.length - 1, severity, linkTypes⟩]
  else
    match scc with
    | [node] =>
      match alookup graph node with
      | none => cycles
      | some edges =>
        if edges.any (fun e => includesS e.2 node) then
          cycles ++ [⟨[node, node], 1, .HIGH, edges.map (fun e => e.1)⟩]
        else cycles
    | _ => cycles

/-- `circularDependencyDetector.detectCircularDependencies`: Tarjan SCCs
over the unlabeled union of all edge types; one concrete cycle per SCC of
size > 1, plus a special case for size-1 SCCs with a true self-loop. -/
def detectCircularDependencies (reqs : List RequirementObject)
    (config : DeepValidationConfig) : List CircularDependency :=
  let graph := buildGraph reqs
  let sccs := findStronglyConnectedComponents graph
  sccs.foldl (detectStep graph config) []

end CircularDependencyDetector

/-! ## Hierarchical traceability coverage (DV-002) -/

namespace Coverage

/-- Result of one hierarchical coverage rule (`HierarchicalCoverage`). -/
structure HierarchicalCoverage where
  linkType : String
  fromTypes : List String
  toTypes : List String
  total : Nat
  withLinks : Nat
  percentage : Nat
  threshold : Nat
  meets_threshold : Bool
  missing : List String
deriving DecidableEq, Repr

/-- Does this source record have at least one link of `linkType` to an
existing target whose type is in `toTypes`? (the `validTargets` filter). -/
def hasValidTarget (reqs : List RequirementObject) (linkType : String)
    (toTypes : List String) (r : RequirementObject) : Bool :=
  match alookup r.links linkType with
  | none => false
  | some links =>
    !links.isEmpty &&
      links.any (fun targetId =>
        match getRequirementById reqs targetId with
        | none => false
        | some target => includesS toTypes target.type)

/-- `calculateCoverageForLinkType`: sources are records whose type is in
`fromTypes`; covered are those with at least one link of the given type to
an existing, correctly-typed target. -/
def calculateCoverageForLinkType (reqs : List RequirementObject)
    (linkType : String) (fromTypes toTypes : List String) (threshold : Nat) :
    HierarchicalCoverage :=
  let sourceRequirements := reqs.filter (fun r => includesS fromTypes r.type)
  let withLinksL := sourceRequirements.filter (hasValidTarget reqs linkType toTypes)
  let missing := (sourceRequirements.filter
    (fun r => !hasValidTarget reqs linkType toTypes r)).map (fun r => r.id)
  let total := sourceRequirements.length
  let covered := withLinksL.length
  let percentage := if total > 0 then jsRoundPct covered total else 0
  ⟨linkType, fromTypes, toTypes, total, covered, percentage, threshold,
    decide (percentage ≥ threshold), missing⟩

end Coverage

/-! ## Orphaned-requirement detection (DV-003, `part_007`) -/

namespace Orphans

/-- Orphan category tags. -/
inductive OrphanCategory where
  | true_orphan
  | dead_end
  | source_only
deriving DecidableEq, Repr

/-- One reported orphaned requirement (`OrphanedRequirement`). -/
structure OrphanedRequirement where
  id : String
  type : String
  priority : String
  category : OrphanCategory
  severity : ValidationSeverity
  incomingCount : Nat
  outgoingCount : Nat
deriving DecidableEq, Repr

/-- `determineOrphanSeverity`: true orphans map priority → severity via the
configured table; dead-ends and source-only orphans are downgraded one
step. -/
def determineOrphanSeverity (r : RequirementObject)
    (category : OrphanCategory) (config : DeepValidationConfig) :
    ValidationSeverity :=
  let priority := toLowerS (priorityOf r)
  match category with
  | .true_orphan =>
    if priority = "critical" then config.orphanSeverity.critical
    else if priority = "high" then config.orphanSeverity.high
    else if priority = "medium" then config.orphanSeverity.medium
    else if priority = "low" then config.orphanSeverity.low
    else .MEDIUM
  | _ =>
    if priority = "critical" then .HIGH
    else if priority = "high" then .MEDIUM
    else if priority = "medium" then .LOW
    else if priority = "low" then .INFO
    else .LOW

/-- The category the classifier assigns (`null` when the record has both
outgoing and incoming links). -/
def classify (outgoing incoming : Nat) : Option OrphanCategory :=
  if outgoing = 0 ∧ incoming = 0 then some .true_orphan
  else if outgoing = 0 ∧ incoming > 0 then some .dead_end
  else if outgoing > 0 ∧ incoming = 0 then some .source_only
  else none

/-- `detectOrphanedRequirements`: classify every record by its outgoing
link count and the count of requirements linking to it. -/
def detectOrphanedRequirements (reqs : List RequirementObject)
    (config : DeepValidationConfig) : List OrphanedRequirement :=
  reqs.foldl
    (fun orphaned r =>
      let outgoing := getAllOutgoingLinks r
      let incoming := getAllIncomingLinks reqs r.id
      match classify outgoing.length incoming.length with
      | none => orphaned
      | some category =>
        orphaned ++ [⟨r.id, r.type, priorityOf r, category,
          determineOrphanSeverity r category config,
          incoming.length, outgoing.length⟩])
    []

end Orphans

/-! ## `validation/completenessAnalyzer.ts` (DV-005, DV-006) -/

namespace Completeness

/-- One reported incomplete traceability chain (`IncompleteChain`). -/
structure IncompleteChain where
  startId : String
  expectedPath : List String
  actualPath : List String
  missingLinks : List String
  severity : ValidationSeverity
deriving DecidableEq, Repr

/-- One priority-bucket coverage result (`PriorityWeightedCoverage`). -/
structure PriorityWeightedCoverage where
  priority : String
  total : Nat
  covered : Nat
  percentage : Nat
  threshold : Nat
  meets_threshold : Bool
  missing : List String
deriving DecidableEq, Repr

/-- One step of `traceChain`: all outgoing-link targets of the frontier
whose type prefix matches the expected next type, as a `Set` in discovery
order. -/
def frontierTargets (reqs : List RequirementObject)
    (currentReqs : List String) (targetType : String) : List String :=
  currentReqs.foldl
    (fun found reqId =>
      match getRequirementById reqs reqId with
      | none => found
      | some r =>
        (getAllOutgoingLinks r).foldl
          (fun found targetId =>
            match getRequirementById reqs targetId with
            | none => found
            | some target =>
              if getTypePrefix target.id = targetType then
                addUnique found targetId
              else found)
          found)
    []

/-- The `for (let i = 1; i < expectedChain.length; i++)` loop of
`traceChain`, carrying the previous expected type, the current frontier,
and the accumulated `(actualPath, missingLinks)`. -/
def traceChainGo (reqs : List RequirementObject) :
    String → List String → List String →
    List String × List String → List String × List String
  | _, [], _, acc => acc
  | prevType, targetType :: restTypes, currentReqs, (actualPath, missingLinks) =>
    let found := frontierTargets reqs currentReqs targetType
    if found.length > 0 then
      traceChainGo reqs targetType restTypes found
        (actualPath ++ [targetType], missingLinks)
    else
      (actualPath, missingLinks ++ [prevType ++ "→" ++ targetType])

/-- `traceChain`: level-by-level breadth expansion along the expected type
sequence, stopping at the first broken segment. Returns
`(actualPath, missingLinks)`. -/
def traceChain (reqs : List RequirementObject) (startId : String)
    (expectedChain : List String) : List String × List String :=
  match expectedChain with
  | [] => ([getTypePrefix startId], [])
  | c0 :: rest =>
    traceChainGo reqs c0 rest [startId] ([getTypePrefix startId], [])

/-- `determineCompletenessSeverity`: priority of the starting record and
number of missing segments → severity. -/
def determineCompletenessSeverity (priority : String)
    (missingLinkCount : Nat) : ValidationSeverity :=
  if priority = "critical" then .BLOCKER
  else if priority = "high" then
    if missingLinkCount > 1 then .HIGH else .MEDIUM
  else .MEDIUM

/-- `verifyHierarchicalCompleteness`: trace a chain from every record whose
type prefix matches the first element of the expected chain; report those
with missing segments. -/
def verifyHierarchicalCompleteness (reqs : List RequirementObject)
    (expectedChain : List String := ["STK", "SYS", "DSG", "TST"]) :
    List IncompleteChain :=
  let startRequirements := reqs.filter
    (fun r =>
      match expectedChain.head? with
      | some c0 => decide (getTypePrefix r.id = c0)
      | none => false)
  startRequirements.foldl
    (fun acc startReq =>
      let traced := traceChain reqs startReq.id expectedChain
      if traced.2.length > 0 then
        acc ++ [⟨startReq.id, expectedChain, traced.1, traced.2,
          determineCompletenessSeverity (priorityOf startReq) traced.2.length⟩]
      else acc)
    []

/-- `config.priorityWeightedCoverage[priority] || 80` (JS `||`: a zero or
missing threshold falls back to 80). -/
def thresholdFor (cfg : PriorityThresholds) (priority : String) : Nat :=
  let t :=
    if priority = "critical" then cfg.critical
    else if priority = "high" then cfg.high
    else if priority = "medium" then cfg.medium
    else if priority = "low" then cfg.low
    else 0
  if t = 0 then 80 else t

/-- `calculatePriorityWeightedCoverage`: for each priority bucket, the
share of records with any outgoing link. -/
def calculatePriorityWeightedCoverage (reqs : List RequirementObject)
    (config : DeepValidationConfig) : List PriorityWeightedCoverage :=
  ["critical", "high", "medium", "low"].map
    (fun priority =>
      let priorityReqs := reqs.filter
        (fun r => decide (toLowerS (priorityOf r) = priority))
      let covered := priorityReqs.filter
        (fun r => decide ((getAllOutgoingLinks r).length > 0))
      let missing := (priorityReqs.filter
        (fun r => decide ((getAllOutgoingLinks r).length = 0))).map
        (fun r => r.id)
      let threshold := thresholdFor config.priorityWeightedCoverage priority
      let total := priorityReqs.length
      let coveredCount := covered.length
      let percentage := if total > 0 then jsRoundPct coveredCount total else 0
      ⟨priority, total, coveredCount, percentage, threshold,
        decide (percentage ≥ threshold), missing⟩)

end Completeness

/-! ## Status-consistency validation (DV-004) -/

namespace StatusConsistency

/-- Violation kinds of the status checker. -/
inductive StatusViolation where
  | approved_to_draft
  | implemented_to_draft
  | baselined_to_draft
deriving DecidableEq, Repr

/-- One reported status inconsistency (`StatusInconsistency`). -/
structure StatusInconsistency where
  chain : List String
  fromId : String
  toId : String
  fromStatus : String
  toStatus : String
  linkType : String
  severity : ValidationSeverity
  violation : StatusViolation
deriving DecidableEq, Repr

/-- `req.status || 'draft'` (JS `||`: absent or empty status is `draft`). -/
def statusOrDraft : Option String → String
  | none => "draft"
  | some s => if s = "" then "draft" else s

/-- `detectStatusViolation`: approved→draft and implemented→draft when the
respective chain is enforced; baselined→draft/review always. -/
def detectStatusViolation (fromStatus toStatus : String)
    (config : DeepValidationConfig) : Option StatusViolation :=
  let sFr := toLowerS fromStatus
  let sTo := toLowerS toStatus
  if config.statusConsistency.enforceApprovedChain ∧
      sFr = "approved" ∧ sTo = "draft" then
    some .approved_to_draft
  else if config.statusConsistency.enforceImplementedChain ∧
      sFr = "implemented" ∧ sTo = "draft" then
    some .implemented_to_draft
  else if sFr = "baselined" ∧ (sTo = "draft" ∨ sTo = "review") then
    some .baselined_to_draft
  else none

/-- `determineStatusInconsistencySeverity`: baselined violations are always
HIGH; otherwise critical/high source priority → HIGH, else MEDIUM. -/
def determineStatusInconsistencySeverity (violation : StatusViolation)
    (priority : String) : ValidationSeverity :=
  if violation = .baselined_to_draft then .HIGH
  else if priority = "critical" ∨ priority = "high" then .HIGH
  else .MEDIUM

/-- `detectStatusInconsistencies`: scan every outgoing link of every
record; the reported chain is the two-node sequence `[fromId, toId]`
(`buildChain`). -/
def detectStatusInconsistencies (reqs : List RequirementObject)
    (config : DeepValidationConfig) : List StatusInconsistency :=
  reqs.foldl
    (fun acc req =>
      let fromStatus := statusOrDraft req.status
      req.links.foldl
        (fun acc lt =>
          lt.2.foldl
            (fun acc targetId =>
              match getRequirementById reqs targetId with
              | none => acc
              | some target =>
                let toStatus := statusOrDraft target.status
                match detectStatusViolation fromStatus toStatus config with
                | none => acc
                | some violation =>
                  acc ++ [⟨[req.id, targetId], req.id, targetId, fromStatus,
                    toStatus, lt.1,
                    determineStatusInconsistencySeverity violation
                      (priorityOf req), violation⟩])
            acc)
        acc)
    []

end StatusConsistency

/-! ## Baseline stability (DV-007) and the deep-validation report -/

namespace Baseline

/-- Issue kinds of the baseline stability analyzer. -/
inductive BaselineIssueKind where
  | not_approved
  | downstream_not_baselined
  | version_conflict
deriving DecidableEq, Repr

/-- One reported baseline issue (`BaselineIssue`). -/
structure BaselineIssue where
  id : String
  baseline : String
  issue : BaselineIssueKind
  severity : ValidationSeverity
  affectedIds : List String
  details : String
deriving DecidableEq, Repr

end Baseline

/-- `DeepValidationReport`: the aggregate of all analyzer outputs consumed
by the gap synthesizer. -/
structure DeepValidationReport where
  circularDependencies : List CircularDependencyDetector.CircularDependency
  hierarchicalCoverage : List Coverage.HierarchicalCoverage
  orphanedRequirements : List Orphans.OrphanedRequirement
  statusInconsistencies : List StatusConsistency.StatusInconsistency
  incompleteChains : List Completeness.IncompleteChain
  priorityWeightedCoverage : List Completeness.PriorityWeightedCoverage
  baselineIssues : List Baseline.BaselineIssue
deriving Repr

/-! ## Gap analysis with actionable recommendations (DV-010, `part_004`) -/

namespace GapAnalysis

/-- Recommendation category tags (`ValidationCategory`). -/
inductive ValidationCategory where
  | CIRCULAR_DEPENDENCY
  | COVERAGE
  | ORPHANED
  | STATUS_CONSISTENCY
  | COMPLETENESS
  | PRIORITY
  | BASELINE
deriving DecidableEq, Repr

/-- One synthesized recommendation (`GapRecommendation`). -/
structure GapRecommendation where
  severity : ValidationSeverity
  category : ValidationCategory
  action : String
  description : String
  affectedCount : Nat
  affectedIds : List String
  estimatedEffort : String
  priority : Nat
deriving DecidableEq, Repr

/-- The `severityOrder` table of the final sort
(`BLOCKER 0, HIGH 1, MEDIUM 2, LOW 3, INFO 4`). -/
def severityRank : ValidationSeverity → Nat
  | .BLOCKER => 0
  | .HIGH => 1
  | .MEDIUM => 2
  | .LOW => 3
  | .INFO => 4

/-- The JS sort comparator as a boolean "less or equal": severity rank
first, ties by descending affected count. -/
def recLE (a b : GapRecommendation) : Bool :=
  if severityRank a.severity = severityRank b.severity then
    decide (b.affectedCount ≤ a.affectedCount)
  else decide (severityRank a.severity < severityRank b.severity)

/-- The `forEach((rec, index) => rec.priority = index + 1)` pass. -/
def assignPriorities : Nat → List GapRecommendation → List GapRecommendation
  | _, [] => []
  | i, r :: rest => { r with priority := i + 1 } :: assignPriorities (i + 1) rest

/-- The insertion-ordered union of all ids of a list of cycles (the
`affectedIds` `Set`). -/
def cycleIds (cycles : List CircularDependencyDetector.CircularDependency) :
    List String :=
  cycles.foldl (fun acc c => c.cycle.foldl addUnique acc) []

/-- `analyzeCircularDependencies`: group cycles by severity bucket. -/
def analyzeCircularDependencies
    (cycles : List CircularDependencyDetector.CircularDependency) :
    List GapRecommendation :=
  if cycles.isEmpty then []
  else
    let blockerCycles := cycles.filter (fun c => decide (c.severity = .BLOCKER))
    let highCycles := cycles.filter (fun c => decide (c.severity = .HIGH))
    let recs :=
      if blockerCycles.length > 0 then
        let affected := cycleIds blockerCycles
        [⟨.BLOCKER, .CIRCULAR_DEPENDENCY, "Break circular dependencies",
          toString blockerCycles.length ++
            " critical circular dependencies detected with length ≤2. These must be resolved immediately.",
          affected.length, affected, "high", 0⟩]
      else []
    if highCycles.length > 0 then
      let affected := cycleIds highCycles
      recs ++ [⟨.HIGH, .CIRCULAR_DEPENDENCY, "Resolve circular dependencies",
        toString highCycles.length ++
          " circular dependencies (length 3-5) should be resolved soon.",
        affected.length, affected, "medium", 0⟩]
    else recs

/-- `analyzeCoverageGaps`: one recommendation per failing hierarchical
rule. -/
def analyzeCoverageGaps (coverage : List Coverage.HierarchicalCoverage) :
    List GapRecommendation :=
  coverage.foldl
    (fun recs cov =>
      if !cov.meets_threshold && cov.missing.length > 0 then
        let gap := cov.threshold - cov.percentage
        let severity : ValidationSeverity :=
          if gap > 20 then .HIGH else if gap > 10 then .MEDIUM else .LOW
        let effort :=
          if cov.missing.length > 20 then "high"
          else if cov.missing.length > 10 then "medium" else "low"
        recs ++ [⟨severity, .COVERAGE, "Add " ++ cov.linkType ++ " links",
          cov.linkType ++ " coverage is " ++ toString cov.percentage ++
            "% (threshold: " ++ toString cov.threshold ++ "%). " ++
            toString cov.missing.length ++ " requirements need links.",
          cov.missing.length, cov.missing, effort, 0⟩]
      else recs)
    []

/-- `analyzeOrphanedRequirements`: critical/high true orphans, and more
than five dead-ends. -/
def analyzeOrphanedRequirements
    (orphans : List Orphans.OrphanedRequirement) : List GapRecommendation :=
  if orphans.isEmpty then []
  else
    let trueOrphans := orphans.filter (fun o => decide (o.category = .true_orphan))
    let deadEnds := orphans.filter (fun o => decide (o.category = .dead_end))
    let criticalOrphans := trueOrphans.filter
      (fun o => decide (o.severity = .BLOCKER ∨ o.severity = .HIGH))
    let recs :=
      if trueOrphans.length > 0 && criticalOrphans.length > 0 then
        [⟨.HIGH, .ORPHANED, "Link critical orphaned requirements",
          toString criticalOrphans.length ++
            " critical/high-priority requirements have no links. These must be integrated into traceability.",
          criticalOrphans.length, criticalOrphans.map (fun o => o.id),
          "high", 0⟩]
      else []
    if deadEnds.length > 5 then
      recs ++ [⟨.MEDIUM, .ORPHANED, "Add downstream traceability",
        toString deadEnds.length ++
          " requirements are dead-ends (no downstream links). Add implementations or tests.",
        deadEnds.length, deadEnds.map (fun o => o.id), "high", 0⟩]
    else recs

/-- `analyzeStatusInconsistencies`: baselined violations first, then
approved→draft ones. -/
def analyzeStatusInconsistencies
    (inconsistencies : List StatusConsistency.StatusInconsistency) :
    List GapRecommendation :=
  if inconsistencies.isEmpty then []
  else
    let approvedToDraft := inconsistencies.filter
      (fun i => decide (i.violation = .approved_to_draft))
    let baselinedToDraft := inconsistencies.filter
      (fun i => decide (i.violation = .baselined_to_draft))
    let recs :=
      if baselinedToDraft.length > 0 then
        let affected := baselinedToDraft.foldl
          (fun acc i => addUnique (addUnique acc i.fromId) i.toId) []
        [⟨.HIGH, .STATUS_CONSISTENCY,
          "Fix baselined requirement status violations",
          toString baselinedToDraft.length ++
            " baselined requirements link to draft/review items. Update downstream statuses.",
          affected.length, affected, "medium", 0⟩]
      else []
    if approvedToDraft.length > 0 then
      let targetIds := approvedToDraft.foldl (fun acc i => addUnique acc i.toId) []
      recs ++ [⟨.MEDIUM, .STATUS_CONSISTENCY,
        "Update status of downstream requirements",
        toString approvedToDraft.length ++
          " approved requirements link to draft items. Consider bulk status update.",
        targetIds.length, targetIds, "low", 0⟩]
    else recs

/-- `analyzeIncompleteChains`: one recommendation covering the
BLOCKER/HIGH incomplete chains. -/
def analyzeIncompleteChains (chains : List Completeness.IncompleteChain) :
    List GapRecommendation :=
  if chains.isEmpty then []
  else
    let criticalChains := chains.filter
      (fun c => decide (c.severity = .BLOCKER ∨ c.severity = .HIGH))
    if criticalChains.isEmpty then []
    else
      [⟨.HIGH, .COMPLETENESS, "Complete critical traceability chains",
        toString criticalChains.length ++
          " critical requirements have incomplete traceability chains (STK→SYS→DSG→TST).",
        criticalChains.length, criticalChains.map (fun c => c.startId),
        "high", 0⟩]

/-- `analyzePriorityCoverage`: one recommendation per failing priority
bucket. -/
def analyzePriorityCoverage
    (coverage : List Completeness.PriorityWeightedCoverage) :
    List GapRecommendation :=
  coverage.foldl
    (fun recs cov =>
      if !cov.meets_threshold && cov.missing.length > 0 then
        let severity : ValidationSeverity :=
          if cov.priority = "critical" then .BLOCKER
          else if cov.priority = "high" then .HIGH else .MEDIUM
        recs ++ [⟨severity, .PRIORITY,
          "Add links for " ++ cov.priority ++ " priority requirements",
          cov.priority ++ " priority coverage is " ++ toString cov.percentage ++
            "% (threshold: " ++ toString cov.threshold ++ "%). " ++
            toString cov.missing.length ++ " requirements need links.",
          cov.missing.length, cov.missing,
          if cov.missing.length > 10 then "high" else "medium", 0⟩]
      else recs)
    []

/-- `analyzeBaselineIssues`: not-approved baselined records, then version
conflicts. -/
def analyzeBaselineIssues (issues : List Baseline.BaselineIssue) :
    List GapRecommendation :=
  if issues.isEmpty then []
  else
    let notApproved := issues.filter (fun i => decide (i.issue = .not_approved))
    let versionConflicts := issues.filter
      (fun i => decide (i.issue = .version_conflict))
    let recs :=
      if notApproved.length > 0 then
        [⟨.HIGH, .BASELINE, "Approve baselined requirements",
          toString notApproved.length ++
            " baselined requirements are not in approved/implemented status.",
          notApproved.length, notApproved.map (fun i => i.id), "medium", 0⟩]
      else []
    if versionConflicts.length > 0 then
      let affected := versionConflicts.foldl
        (fun acc i => i.affectedIds.foldl addUnique acc) []
      recs ++ [⟨.MEDIUM, .BASELINE, "Resolve baseline version conflicts",
        toString versionConflicts.length ++
          " baseline version conflicts detected in traceability chains.",
        affected.length, affected, "medium", 0⟩]
    else recs

/-- The unsorted recommendation list collected from all analyzer outputs,
in source order. -/
def collectRecommendations (report : DeepValidationReport) :
    List GapRecommendation :=
  analyzeCircularDependencies report.circularDependencies ++
    analyzeCoverageGaps report.hierarchicalCoverage ++
    analyzeOrphanedRequirements report.orphanedRequirements ++
    analyzeStatusInconsistencies report.statusInconsistencies ++
    analyzeIncompleteChains report.incompleteChains ++
    analyzePriorityCoverage report.priorityWeightedCoverage ++
    analyzeBaselineIssues report.baselineIssues

/-- `generateGapRecommendations`: collect, stable-sort by severity rank
then descending affected count (ES2019 `Array.prototype.sort` is stable,
modelled by `List.mergeSort`), then assign 1-based priorities. -/
def generateGapRecommendations (report : DeepValidationReport) :
    List GapRecommendation :=
  assignPriorities 0 ((collectRecommendations report).mergeSort recLE)

end GapAnalysis

/-! ## The Requirement Index (Index Builder)

The `IndexBuilder` module itself (`src/indexing/indexBuilder.ts`) is not
among the provided sources; only its callers and the requirements document
describing its maps are. The model below follows the spec's words. -/

namespace Index

/-- Modelled from the spec: the missing `IndexBuilder`'s
`RequirementIndex` — the primary `objects` map, the `fileIndex` secondary
map, and the `linkGraph : id -> set of linked ids` that registers both
directions of every link. The remaining secondary maps (by
type/level/status/baseline) do not interact with `linkGraph` and are not
modelled. -/
structure RequirementIndex where
  objects : List (String × RequirementObject)
  fileIndex : List (String × List String)
  linkGraph : List (String × List String)

/-- The empty index. -/
def emptyIndex : RequirementIndex := ⟨[], [], []⟩

/-- The set stored in `linkGraph` for an id (empty when absent). -/
def lgGet (lg : List (String × List String)) (x : String) : List String :=
  (alookup lg x).getD []

/-- Register `y` in the `linkGraph` set of `x`. -/
def lgAdd (lg : List (String × List String)) (x y : String) :
    List (String × List String) :=
  aset lg x (addUnique (lgGet lg x) y)

/-- Register one directed link `a -> b` in `linkGraph` in both directions
(the spec: "inserting any directed link `a -> b` (of any link-type) must
also register `b -> a`"). -/
def lgAddPair (lg : List (String × List String)) (a b : String) :
    List (String × List String) :=
  lgAdd (lgAdd lg a b) b a

/-- Register every outgoing link of a record in `linkGraph`. -/
def registerLinks (lg : List (String × List String))
    (r : RequirementObject) : List (String × List String) :=
  (getAllOutgoingLinks r).foldl (fun lg b => lgAddPair lg r.id b) lg

/-- Is the pair `(x, y)` justified by some record of the `objects` map,
i.e. does the record stored at `x` link to `y` or the record stored at `y`
link to `x`? -/
def justifiedB (objects : List (String × RequirementObject)) (x y : String) :
    Bool :=
  (match alookup objects x with
   | some r => includesS (getAllOutgoingLinks r) y
   | none => false) ||
  (match alookup objects y with
   | some r => includesS (getAllOutgoingLinks r) x
   | none => false)

/-- Unwind removed contributions from `linkGraph`: at every key among
`keys`, keep only the neighbours still justified by the remaining records
(the spec: removal "unwinds their contribution to ... both directions of
affected `linkGraph` entries", which must not drop a pair a remaining
record still justifies). -/
def lgCleanup (objects : List (String × RequirementObject))
    (keys : List String) (lg : List (String × List String)) :
    List (String × List String) :=
  lg.map (fun p =>
    if includesS keys p.1 then (p.1, p.2.filter (fun y => justifiedB objects p.1 y))
    else p)

/-- `Map.delete`: drop every entry stored under the key. -/
def eraseKey {α : Type} (l : List (String × α)) (id : String) :
    List (String × α) :=
  l.filter (fun p => decide (p.1 ≠ id))

/-- Remove the record stored under `id` (if any): delete it from `objects`
and from its file's entry, and unwind both directions of its links in
`linkGraph`. -/
def removeById (idx : RequirementIndex) (id : String) : RequirementIndex :=
  match alookup idx.objects id with
  | none => idx
  | some old =>
    let objects' := eraseKey idx.objects id
    { objects := objects',
      fileIndex := aset idx.fileIndex old.location.file
        (removeAllS (lgGet idx.fileIndex old.location.file) id),
      linkGraph := lgCleanup objects' (id :: getAllOutgoingLinks old)
        idx.linkGraph }

/-- `upsert(record)`: replace any previous record with the same id
(last-write-wins), then insert the record and register both directions of
each of its links in `linkGraph`. -/
def upsert (idx : RequirementIndex) (r : RequirementObject) :
    RequirementIndex :=
  let idx := removeById idx r.id
  { objects := aset idx.objects r.id r,
    fileIndex := aset idx.fileIndex r.location.file
      (addUnique (lgGet idx.fileIndex r.location.file) r.id),
    linkGraph := registerLinks idx.linkGraph r }

/-- `removeByFile(file)`: remove every record registered under the file. -/
def removeByFile (idx : RequirementIndex) (file : String) :
    RequirementIndex :=
  (lgGet idx.fileIndex file).foldl removeById idx

/-- One Index Builder mutation. -/
inductive IndexOp where
  | upsertOp (r : RequirementObject)
  | removeByFileOp (file : String)

/-- Apply a sequence of mutations to the empty index. -/
def applyOps (ops : List IndexOp) : RequirementIndex :=
  ops.foldl
    (fun idx op =>
      match op with
      | .upsertOp r => upsert idx r
      | .removeByFileOp f => removeByFile idx f)
    emptyIndex

end Index

/-! ## Statement-level definitions used by the theorems -/

namespace Index

/-- The symmetry invariant claimed of `linkGraph`: whenever the record
stored at id `a` has `b` among its outgoing link targets (any link-type),
`b` is registered in `linkGraph(a)` and `a` in `linkGraph(b)`. -/
def LinkSym (idx : RequirementIndex) : Prop :=
  ∀ a b r, alookup idx.objects a = some r → b ∈ getAllOutgoingLinks r →
    b ∈ lgGet idx.linkGraph a ∧ a ∈ lgGet idx.linkGraph b

end Index

namespace Coverage

/-- Declarative reading of "covered": the record has at least one link of
the given type to an existing target whose type is in `toTypes`. -/
def ValidTargetP (reqs : List RequirementObject) (linkType : String)
    (toTypes : List String) (r : RequirementObject) : Prop :=
  ∃ tid, tid ∈ (alookup r.links linkType).getD [] ∧
    ∃ tgt, getRequirementById reqs tid = some tgt ∧ tgt.type ∈ toTypes

end Coverage

namespace Orphans

/-- The claim's own reading of `inDegree`, following its words: the degree
of the record in the symmetric `linkGraph` view (neighbours linked in
either direction), excluding the record itself. -/
def specLinkGraphDegree (reqs : List RequirementObject) (id : String) : Nat :=
  let outgoing :=
    match getRequirementById reqs id with
    | some r => getAllOutgoingLinks r
    | none => []
  let incoming := (reqs.filter
    (fun r => includesS (getAllOutgoingLinks r) id)).map (fun r => r.id)
  ((dedupe (outgoing ++ incoming)).filter (fun y => decide (y ≠ id))).length

end Orphans

namespace GapAnalysis

/-- The ordering claimed of the final recommendation list: strictly
smaller severity rank first, ties resolved by descending affected count. -/
def RecOrder (a b : GapRecommendation) : Prop :=
  severityRank a.severity < severityRank b.severity ∨
    (severityRank a.severity = severityRank b.severity ∧
      b.affectedCount ≤ a.affectedCount)

end GapAnalysis

namespace CircularDependencyDetector

/-- The invariant a Tarjan run maintains for a node `rid` whose only
outgoing edge is the self-loop: `rid` is never left on the stack between
top-level calls, and the recorded SCC list contains no component with
`rid` before `rid` is indexed — and exactly the singleton `[rid]` after. -/
def SelfLoopInv (rid : String) (st : TarjanState) : Prop :=
  rid ∉ st.stack ∧ rid ∉ st.onStack ∧
  ((alookup st.indices rid = none ∧
      st.sccs.filter (fun scc => includesS scc rid) = []) ∨
   ((alookup st.indices rid).isSome = true ∧
      st.sccs.filter (fun scc => includesS scc rid) = [[rid]]))

end CircularDependencyDetector

/-! ## Concrete sample records used by counterexamples and witnesses -/

/-- A record with the given id and flat `links` link list (the shape of the
unit tests' `createMockRequirement`). -/
def mockReq (id : String) (targets : List String) : RequirementObject :=
  { id := id, type := "requirement", title := "Requirement " ++ id,
    description := "Test description", links := [("links", targets)],
    location := ⟨"/test/file.rst", 1⟩ }

/-- Like `mockReq` but with no `links` entry at all. -/
def mockReqNoLinks (id : String) : RequirementObject :=
  { id := id, type := "requirement", title := "Requirement " ++ id,
    description := "Test description", links := [],
    location := ⟨"/test/file.rst", 1⟩ }

/-- The two-record cycle `REQ001 ↔ REQ002` (the spec's scenario). -/
def twoCycleReqs : List RequirementObject :=
  [mockReq "REQ001" ["REQ002"], mockReq "REQ002" ["REQ001"]]

/-- Three records A→B, B→{A,C}, C→{B,A}, in the order [A, B, C]. -/
def permReqsABC : List RequirementObject :=
  [mockReq "A" ["B"], mockReq "B" ["A", "C"], mockReq "C" ["B", "A"]]

/-- The same three records in the order [C, B, A]. -/
def permReqsCBA : List RequirementObject :=
  [mockReq "C" ["B", "A"], mockReq "B" ["A", "C"], mockReq "A" ["B"]]

/-- A record `A` linking to `B` under link-type `satisfies`. -/
def sampleLinkedA : RequirementObject :=
  { id := "A", type := "r", links := [("satisfies", ["B"])] }

/-- A record with explicit id, type and links. -/
def typedReq (id ty : String) (lks : List (String × List String)) :
    RequirementObject :=
  { id := id, type := ty, links := lks }

/-- The A→B→C `implements` chain with three distinct types. -/
def chainA : RequirementObject := typedReq "A" "TA" [("implements", ["B"])]

/-- See `chainA`. -/
def chainB : RequirementObject := typedReq "B" "TB" [("implements", ["C"])]

/-- See `chainA`. -/
def chainC : RequirementObject := typedReq "C" "TC" []

/-- The same A→B→C `implements` chain with all three records sharing one
type `T`. -/
def chainSameA : RequirementObject := typedReq "A" "T" [("implements", ["B"])]

/-- See `chainSameA`. -/
def chainSameB : RequirementObject := typedReq "B" "T" [("implements", ["C"])]

/-- See `chainSameA`. -/
def chainSameC : RequirementObject := typedReq "C" "T" []

/-- The per-record entry the orphan classifier appends (when the record is
classified at all). -/
def Orphans.orphanEntry (reqs : List RequirementObject)
    (config : DeepValidationConfig) (r : RequirementObject) :
    Option Orphans.OrphanedRequirement :=
  match Orphans.classify (getAllOutgoingLinks r).length
      (getAllIncomingLinks reqs r.id).length with
  | none => none
  | some category =>
    some ⟨r.id, r.type, priorityOf r, category,
      Orphans.determineOrphanSeverity r category config,
      (getAllIncomingLinks reqs r.id).length, (getAllOutgoingLinks r).length⟩

/-- An `approved`-status record linking to `draftReq` via `satisfies`. -/
def approvedReq : RequirementObject :=
  { id := "A", type := "r", status := some "approved",
    links := [("satisfies", ["B"])] }

/-- A `draft`-status record with no links. -/
def draftReq : RequirementObject :=
  { id := "B", type := "r", status := some "draft" }

/-- A lone stakeholder-prefixed record with no links. -/
def stkOnlyReq : RequirementObject := typedReq "STK1" "T" []

/-- Forty records of which exactly 23 have an outgoing link: coverage
23/40 = 57.5%, an exact rounding tie. -/
def tieReqs : List RequirementObject :=
  (List.range 23).map
    (fun i => mockReq (String.mk ('L' :: List.replicate i 'a')) ["T"]) ++
  (List.range 17).map
    (fun i => mockReqNoLinks (String.mk ('N' :: List.replicate i 'a')))

/-- The rounding the claim describes, taken at its words with the
documented `Math.round` tie rule: the nearest integer to
`100 * covered / total` computed on the exact ratio, ties rounding up. -/
def specRoundHalfUpPct (covered total : Nat) : Nat :=
  (200 * covered + total) / (2 * total)

/-- The percentage contract the code actually satisfies: `percentage` is 0
when the candidate population is empty, and otherwise (for any population
size a real index can have) an integer within half a unit of the exact
`100 * covered / total` — a nearest integer, either neighbour being
possible when the exact ratio is an exact half. -/
def NearestPct (total covered percentage : Nat) : Prop :=
  (total = 0 → percentage = 0) ∧
  (0 < total → total ≤ 2 ^ 43 →
    2 * total * percentage ≤ 200 * covered + total ∧
    200 * covered ≤ 2 * total * percentage + total)

/-! ## Supporting lemmas: list and association-list helpers -/

theorem includesS_iff {l : List String} {x : String} :
    includesS l x = true ↔ x ∈ l := by
  induction l with
  | nil => simp [includesS]
  | cons y rest ih =>
    simp only [includesS]
    by_cases h : y = x
    · subst h; simp
    · simp [h, ih, Ne.symm h]

theorem includesS_eq_false_iff {l : List String} {x : String} :
    includesS l x = false ↔ x ∉ l := by
  rw [← Bool.not_eq_true, not_iff_not]
  exact includesS_iff

theorem alookup_aset_self {α : Type} (l : List (String × α)) (k : String)
    (v : α) : alookup (aset l k v) k = some v := by
  induction l with
  | nil => simp [aset, alookup]
  | cons p rest ih =>
    by_cases h : p.1 = k
    · simp [aset, h, alookup]
    · simp [aset, h, alookup, ih]

theorem alookup_aset_ne {α : Type} (l : List (String × α)) (k k' : String)
    (v : α) (h : k' ≠ k) : alookup (aset l k v) k' = alookup l k' := by
  induction l with
  | nil => simp [aset, alookup, Ne.symm h]
  | cons p rest ih =>
    by_cases hp : p.1 = k
    · subst hp
      simp [aset, alookup, Ne.symm h]
    · by_cases hp' : p.1 = k'
      · simp [aset, hp, alookup, hp', h]
      · simp [aset, hp, alookup, hp', ih]

theorem mem_addUnique_self (l : List String) (x : String) :
    x ∈ addUnique l x := by
  unfold addUnique
  by_cases h : includesS l x = true
  · simp [h, includesS_iff.mp h]
  · simp [h]

theorem mem_addUnique_of_mem {l : List String} {y : String} (x : String)
    (h : y ∈ l) : y ∈ addUnique l x := by
  unfold addUnique
  by_cases hx : includesS l x = true <;> simp [hx, h]

theorem mem_of_mem_addUnique {l : List String} {x y : String}
    (h : y ∈ addUnique l x) : y ∈ l ∨ y = x := by
  unfold addUnique at h
  by_cases hx : includesS l x = true
  · simp [hx] at h; exact Or.inl h
  · simp [hx] at h
    rcases h with h | h
    · exact Or.inl h
    · exact Or.inr h

theorem mem_removeAllS {l : List String} {x y : String} :
    y ∈ removeAllS l x ↔ y ∈ l ∧ y ≠ x := by
  simp [removeAllS]

/-! ## Supporting lemmas: the `linkGraph` symmetry invariant -/

namespace Index

theorem mem_lgGet_lgAdd {lg : List (String × List String)} {w z : String}
    (x y : String) (h : z ∈ lgGet lg w) : z ∈ lgGet (lgAdd lg x y) w := by
  unfold lgAdd lgGet
  by_cases hw : w = x
  · subst hw
    rw [alookup_aset_self]
    exact mem_addUnique_of_mem y h
  · rw [alookup_aset_ne _ _ _ _ hw]
    exact h

theorem self_mem_lgGet_lgAdd (lg : List (String × List String))
    (x y : String) : y ∈ lgGet (lgAdd lg x y) x := by
  unfold lgAdd lgGet
  rw [alookup_aset_self]
  exact mem_addUnique_self _ y

theorem mem_lgGet_lgAddPair {lg : List (String × List String)}
    {w z : String} (a b : String) (h : z ∈ lgGet lg w) :
    z ∈ lgGet (lgAddPair lg a b) w :=
  mem_lgGet_lgAdd b a (mem_lgGet_lgAdd a b h)

theorem pair_mem_lgAddPair (lg : List (String × List String))
    (a b : String) :
    b ∈ lgGet (lgAddPair lg a b) a ∧ a ∈ lgGet (lgAddPair lg a b) b :=
  ⟨mem_lgGet_lgAdd b a (self_mem_lgGet_lgAdd lg a b),
   self_mem_lgGet_lgAdd _ b a⟩

theorem mem_lgGet_foldl_pairs (a : String) (ts : List String)
    (lg : List (String × List String)) {w z : String} (h : z ∈ lgGet lg w) :
    z ∈ lgGet (ts.foldl (fun lg b => lgAddPair lg a b) lg) w := by
  induction ts generalizing lg with
  | nil => exact h
  | cons t rest ih => exact ih _ (mem_lgGet_lgAddPair a t h)

theorem pair_mem_foldl_pairs (a : String) {b : String} {ts : List String}
    (hb : b ∈ ts) (lg : List (String × List String)) :
    b ∈ lgGet (ts.foldl (fun lg b => lgAddPair lg a b) lg) a ∧
      a ∈ lgGet (ts.foldl (fun lg b => lgAddPair lg a b) lg) b := by
  induction ts generalizing lg with
  | nil => cases hb
  | cons t rest ih =>
    rcases List.mem_cons.mp hb with h | h
    · subst h
      have pair := pair_mem_lgAddPair lg a b
      exact ⟨mem_lgGet_foldl_pairs a rest _ pair.1,
             mem_lgGet_foldl_pairs a rest _ pair.2⟩
    · exact ih h _

theorem mem_lgGet_registerLinks {lg : List (String × List String)}
    {w z : String} (r : RequirementObject) (h : z ∈ lgGet lg w) :
    z ∈ lgGet (registerLinks lg r) w :=
  mem_lgGet_foldl_pairs r.id _ lg h

theorem pair_mem_registerLinks (lg : List (String × List String))
    (r : RequirementObject) {b : String} (hb : b ∈ getAllOutgoingLinks r) :
    b ∈ lgGet (registerLinks lg r) r.id ∧
      r.id ∈ lgGet (registerLinks lg r) b :=
  pair_mem_foldl_pairs r.id hb lg

theorem justifiedB_symm (objects : List (String × RequirementObject))
    (x y : String) : justifiedB objects x y = justifiedB objects y x := by
  unfold justifiedB
  exact Bool.or_comm _ _

theorem alookup_eraseKey_self {α : Type} (l : List (String × α))
    (id : String) : alookup (eraseKey l id) id = none := by
  induction l with
  | nil => rfl
  | cons p rest ih =>
    obtain ⟨k, v⟩ := p
    rw [eraseKey, List.filter_cons]
    by_cases h : k = id
    · rw [if_neg (by simp [h])]
      exact ih
    · rw [if_pos (by simp [h])]
      show alookup ((k, v) :: eraseKey rest id) id = none
      rw [alookup, if_neg h]
      exact ih

theorem alookup_eraseKey_of_ne {α : Type} (l : List (String × α))
    {a id : String} (h : a ≠ id) :
    alookup (eraseKey l id) a = alookup l a := by
  induction l with
  | nil => rfl
  | cons p rest ih =>
    obtain ⟨k, v⟩ := p
    rw [eraseKey, List.filter_cons]
    by_cases hk : k = id
    · rw [if_neg (by simp [hk])]
      rw [alookup, if_neg (by rw [hk]; exact Ne.symm h)]
      exact ih
    · rw [if_pos (by simp [hk])]
      show alookup ((k, v) :: eraseKey rest id) a = alookup ((k, v) :: rest) a
      rw [alookup, alookup]
      by_cases hka : k = a
      · rw [if_pos hka, if_pos hka]
      · rw [if_neg hka, if_neg hka]
        exact ih

theorem mem_lgGet_lgCleanup (objects : List (String × RequirementObject))
    (keys : List String) {lg : List (String × List String)} {x y : String}
    (hm : y ∈ lgGet lg x) (hj : justifiedB objects x y = true) :
    y ∈ lgGet (lgCleanup objects keys lg) x := by
  induction lg with
  | nil => simp [lgGet, alookup] at hm
  | cons p rest ih =>
    obtain ⟨k, v⟩ := p
    rw [lgCleanup, List.map_cons]
    by_cases hx : k = x
    · subst hx
      have hm' : y ∈ v := by simpa [lgGet, alookup] using hm
      by_cases hk : includesS keys k
      · rw [if_pos hk]
        simp only [lgGet, alookup, if_pos rfl, Option.getD_some]
        exact List.mem_filter.mpr ⟨hm', hj⟩
      · rw [if_neg hk]
        simpa [lgGet, alookup] using hm'
    · have hm' : y ∈ lgGet rest x := by
        simpa [lgGet, alookup, hx] using hm
      have hrec := ih hm'
      have hrec' : y ∈ lgGet (lgCleanup objects keys rest) x := hrec
      by_cases hk : includesS keys k
      · rw [if_pos hk]
        simpa [lgGet, alookup, hx] using hrec'
      · rw [if_neg hk]
        simpa [lgGet, alookup, hx] using hrec'

theorem linkSym_removeById {idx : RequirementIndex} (id : String)
    (h : LinkSym idx) : LinkSym (removeById idx id) := by
  unfold removeById
  cases hl : alookup idx.objects id with
  | none => exact h
  | some old =>
    intro a b r hlook hmem
    simp only at hlook ⊢
    have hane : a ≠ id := by
      intro heq
      subst heq
      rw [alookup_eraseKey_self] at hlook
      cases hlook
    rw [alookup_eraseKey_of_ne _ hane] at hlook
    have hpair := h a b r hlook hmem
    have hjab : justifiedB (eraseKey idx.objects id) a b = true := by
      unfold justifiedB
      rw [alookup_eraseKey_of_ne _ hane, hlook]
      simp [includesS_iff.mpr hmem]
    have hjba : justifiedB (eraseKey idx.objects id) b a = true := by
      rw [justifiedB_symm]
      exact hjab
    exact ⟨mem_lgGet_lgCleanup _ _ hpair.1 hjab,
           mem_lgGet_lgCleanup _ _ hpair.2 hjba⟩

theorem linkSym_upsert {idx : RequirementIndex} (r : RequirementObject)
    (h : LinkSym idx) : LinkSym (upsert idx r) := by
  have h1 := linkSym_removeById r.id h
  intro a b s hlook hmem
  unfold upsert at hlook ⊢
  simp only at hlook ⊢
  by_cases ha : a = r.id
  · subst ha
    rw [alookup_aset_self] at hlook
    cases hlook
    exact pair_mem_registerLinks _ _ hmem
  · rw [alookup_aset_ne _ _ _ _ ha] at hlook
    have hpair := h1 a b s hlook hmem
    exact ⟨mem_lgGet_registerLinks r hpair.1, mem_lgGet_registerLinks r hpair.2⟩

theorem linkSym_foldl_removeById (ids : List String)
    {idx : RequirementIndex} (h : LinkSym idx) :
    LinkSym (ids.foldl removeById idx) := by
  induction ids generalizing idx with
  | nil => exact h
  | cons i rest ih => exact ih (linkSym_removeById i h)

theorem linkSym_removeByFile {idx : RequirementIndex} (file : String)
    (h : LinkSym idx) : LinkSym (removeByFile idx file) :=
  linkSym_foldl_removeById _ h

theorem linkSym_emptyIndex : LinkSym emptyIndex := by
  intro a b r hlook hmem
  cases hlook

theorem linkSym_foldl_ops (ops : List IndexOp) {idx : RequirementIndex}
    (h : LinkSym idx) :
    LinkSym (ops.foldl
      (fun idx op =>
        match op with
        | .upsertOp r => upsert idx r
        | .removeByFileOp f => removeByFile idx f)
      idx) := by
  induction ops generalizing idx with
  | nil => exact h
  | cons op rest ih =>
    cases op with
    | upsertOp r => exact ih (linkSym_upsert r h)
    | removeByFileOp f => exact ih (linkSym_removeByFile f h)

end Index

/-! ## Supporting lemmas: canonical-cycle deduplication -/

namespace GraphAnalysis

theorem dedupCycles_fold_invariant (cycles : List (List String))
    (acc : List (List String) × List String)
    (hkeys : acc.2 = acc.1.map (fun c => String.intercalate "->" c))
    (hnd : acc.2.Nodup) :
    (cycles.foldl
      (fun (acc : List (List String) × List String) cycle =>
        let normalized := normalizeCycle cycle
        let key := String.intercalate "->" normalized
        if includesS acc.2 key then acc
        else (acc.1 ++ [normalized], acc.2 ++ [key]))
      acc).2 =
      (cycles.foldl
        (fun (acc : List (List String) × List String) cycle =>
          let normalized := normalizeCycle cycle
          let key := String.intercalate "->" normalized
          if includesS acc.2 key then acc
          else (acc.1 ++ [normalized], acc.2 ++ [key]))
        acc).1.map (fun c => String.intercalate "->" c) ∧
    (cycles.foldl
      (fun (acc : List (List String) × List String) cycle =>
        let normalized := normalizeCycle cycle
        let key := String.intercalate "->" normalized
        if includesS acc.2 key then acc
        else (acc.1 ++ [normalized], acc.2 ++ [key]))
      acc).2.Nodup := by
  induction cycles generalizing acc with
  | nil => exact ⟨hkeys, hnd⟩
  | cons c rest ih =>
    simp only [List.foldl_cons]
    by_cases hmem : includesS acc.2 (String.intercalate "->" (normalizeCycle c))
    · rw [if_pos hmem]
      exact ih acc hkeys hnd
    · rw [if_neg hmem]
      refine ih _ ?_ ?_
      · simp [hkeys]
      · refine List.Nodup.append hnd (List.nodup_singleton _) ?_
        intro x hx hx'
        rcases List.mem_singleton.mp hx' with rfl
        exact (includesS_eq_false_iff.mp (Bool.not_eq_true _ ▸
          Bool.of_not_eq_true hmem)) hx

theorem dedupCycles_keys_nodup (cycles : List (List String)) :
    ((dedupCycles cycles).map (fun c => String.intercalate "->" c)).Nodup := by
  have h := dedupCycles_fold_invariant cycles ([], []) rfl List.nodup_nil
  unfold dedupCycles
  rw [← h.1]
  exact h.2

end GraphAnalysis

/-! ## Supporting lemmas: coverage and orphan classification -/

theorem hasValidTarget_iff (reqs : List RequirementObject) (lt : String)
    (toT : List String) (r : RequirementObject) :
    Coverage.hasValidTarget reqs lt toT r = true ↔
      Coverage.ValidTargetP reqs lt toT r := by
  unfold Coverage.hasValidTarget Coverage.ValidTargetP
  cases halookup : alookup r.links lt with
  | none => simp
  | some links =>
    simp only [Option.getD_some]
    constructor
    · intro h
      rw [Bool.and_eq_true] at h
      obtain ⟨hne, hany⟩ := h
      obtain ⟨tid, htid, hf⟩ := List.any_eq_true.mp hany
      cases hg : getRequirementById reqs tid with
      | none => rw [hg] at hf; cases hf
      | some tgt =>
        rw [hg] at hf
        exact ⟨tid, htid, tgt, hg, includesS_iff.mp hf⟩
    · rintro ⟨tid, htid, tgt, hg, hty⟩
      rw [Bool.and_eq_true]
      refine ⟨?_, ?_⟩
      · simp [List.isEmpty_iff, List.ne_nil_of_mem htid]
      · exact List.any_eq_true.mpr ⟨tid, htid, by
          rw [hg]; exact includesS_iff.mpr hty⟩

namespace Orphans

theorem detectOrphaned_go (reqs : List RequirementObject)
    (cfg : DeepValidationConfig) (l : List RequirementObject)
    (acc : List OrphanedRequirement) :
    l.foldl
      (fun orphaned r =>
        match orphanEntry reqs cfg r with
        | none => orphaned
        | some o => orphaned ++ [o])
      acc = acc ++ l.filterMap (orphanEntry reqs cfg) := by
  induction l generalizing acc with
  | nil => simp
  | cons x rest ih =>
    cases hf : orphanEntry reqs cfg x with
    | none => simp [List.foldl_cons, hf, ih, List.filterMap_cons]
    | some o => simp [List.foldl_cons, hf, ih, List.filterMap_cons]

theorem detectOrphaned_eq (reqs : List RequirementObject)
    (cfg : DeepValidationConfig) :
    detectOrphanedRequirements reqs cfg =
      reqs.filterMap (orphanEntry reqs cfg) := by
  unfold detectOrphanedRequirements
  have hbody :
      (fun (orphaned : List OrphanedRequirement) (r : RequirementObject) =>
        match classify (getAllOutgoingLinks r).length
            (getAllIncomingLinks reqs r.id).length with
        | none => orphaned
        | some category =>
          orphaned ++ [⟨r.id, r.type, priorityOf r, category,
            determineOrphanSeverity r category cfg,
            (getAllIncomingLinks reqs r.id).length,
            (getAllOutgoingLinks r).length⟩]) =
      (fun (orphaned : List OrphanedRequirement) (r : RequirementObject) =>
        match orphanEntry reqs cfg r with
        | none => orphaned
        | some o => orphaned ++ [o]) := by
    funext orphaned r
    unfold orphanEntry
    cases hc : classify (getAllOutgoingLinks r).length
        (getAllIncomingLinks reqs r.id).length <;> simp [hc]
  rw [hbody, detectOrphaned_go]
  simp

end Orphans

/-! ## Supporting lemmas: rounded percentages in binary64 -/

theorem log2fuel_correct :
    ∀ fuel n, 0 < n → n ≤ fuel →
      2 ^ log2fuel fuel n ≤ n ∧ n < 2 ^ (log2fuel fuel n + 1) := by
  intro fuel
  induction fuel with
  | zero => intro n h1 h2; omega
  | succ fuel ih =>
    intro n h1 h2
    rw [log2fuel]
    by_cases hle : n ≤ 1
    · rw [if_pos hle]
      simp
      omega
    · rw [if_neg hle]
      have hrec := ih (n / 2) (by omega) (by omega)
      rw [pow_succ, pow_succ]
      have := Nat.div_add_mod n 2
      have := Nat.mod_lt n (show 0 < 2 by omega)
      omega

theorem nlog2_le (n : Nat) (h : 0 < n) : 2 ^ nlog2 n ≤ n :=
  (log2fuel_correct n n h (Nat.le_refl n)).1

theorem nlog2_lt (n : Nat) (h : 0 < n) : n < 2 ^ (nlog2 n + 1) :=
  (log2fuel_correct n n h (Nat.le_refl n)).2

/-- `rne a b` is within half a unit of `a / b` (scaled integer form). -/
theorem rne_bounds (a b : Nat) (hb : 0 < b) :
    2 * b * rne a b ≤ 2 * a + b ∧ 2 * a ≤ 2 * b * rne a b + b := by
  unfold rne
  have hdm := Nat.div_add_mod a b
  have hmlt := Nat.mod_lt a hb
  have e1 : 2 * b * (a / b) = 2 * (b * (a / b)) := by ring
  have e2 : 2 * b * (a / b + 1) = 2 * (b * (a / b)) + 2 * b := by ring
  by_cases h1 : 2 * (a % b) < b
  · rw [if_pos h1]
    omega
  · rw [if_neg h1]
    by_cases h2 : b < 2 * (a % b)
    · rw [if_pos h2]
      omega
    · rw [if_neg h2]
      by_cases h3 : a / b % 2 = 0
      · rw [if_pos h3]
        omega
      · rw [if_neg h3]
        omega

/-- Relative-error bound of the 53-bit rounding: the result `(n, d)` of
value `n / d` differs from `a / b` by at most `(a / b) / 2 ^ 53`, stated
in the multiplied-out sub-free form. Only the lower bracket
`b * 2 ^ l ≤ a * 2 ^ N` (the scaled value is at least `2 ^ 52`) is
needed. -/
theorem fl53Core_bounds (a b N l : Nat) (ha : 0 < a) (hb : 0 < b)
    (hbr : b * 2 ^ l ≤ a * 2 ^ N) :
    0 < (fl53Core a b N l).2 ∧ 0 < (fl53Core a b N l).1 ∧
    2 ^ 53 * (a * (fl53Core a b N l).2) ≤
      2 ^ 53 * ((fl53Core a b N l).1 * b) + a * (fl53Core a b N l).2 ∧
    2 ^ 53 * ((fl53Core a b N l).1 * b) ≤
      2 ^ 53 * (a * (fl53Core a b N l).2) + a * (fl53Core a b N l).2 := by
  unfold fl53Core
  by_cases hcase : N + 52 ≤ l
  · rw [if_pos hcase]
    simp only
    have hBpos : 0 < b * 2 ^ (l - N - 52) :=
      Nat.mul_pos hb (Nat.pos_pow_of_pos _ (by omega))
    obtain ⟨hG1, hG2⟩ := rne_bounds a (b * 2 ^ (l - N - 52)) hBpos
    have hF3 : 2 ^ 52 * (b * 2 ^ (l - N - 52)) ≤ a := by
      have hle : l = N + 52 + (l - N - 52) := by omega
      rw [hle, pow_add, pow_add] at hbr
      have hre : b * (2 ^ N * 2 ^ 52 * 2 ^ (l - N - 52)) =
          2 ^ 52 * (b * 2 ^ (l - N - 52)) * 2 ^ N := by ring
      rw [hre] at hbr
      exact Nat.le_of_mul_le_mul_right hbr (Nat.pos_pow_of_pos _ (by omega))
    have hRpos : 0 < rne a (b * 2 ^ (l - N - 52)) := by
      by_contra hR0
      have hR : rne a (b * 2 ^ (l - N - 52)) = 0 := by omega
      rw [hR] at hG2
      simp at hG2
      omega
    have hglue1 : 2 * (b * 2 ^ (l - N - 52)) * rne a (b * 2 ^ (l - N - 52)) =
        2 * (b * 2 ^ (l - N - 52) * rne a (b * 2 ^ (l - N - 52))) := by ring
    have hglue2 : rne a (b * 2 ^ (l - N - 52)) * 2 ^ (l - N - 52) * b =
        b * 2 ^ (l - N - 52) * rne a (b * 2 ^ (l - N - 52)) := by ring
    rw [hglue1] at hG1 hG2
    refine ⟨by omega, by positivity, ?_, ?_⟩
    · rw [hglue2]
      omega
    · rw [hglue2]
      omega
  · rw [if_neg hcase]
    simp only
    obtain ⟨hG1, hG2⟩ := rne_bounds (a * 2 ^ (N + 52 - l)) b hb
    have hF3 : 2 ^ 52 * b ≤ a * 2 ^ (N + 52 - l) := by
      have hlk : l + (N + 52 - l) = N + 52 := by omega
      have hbr2 : b * 2 ^ l * 2 ^ (N + 52 - l) ≤ a * 2 ^ N * 2 ^ (N + 52 - l) :=
        Nat.mul_le_mul_right _ hbr
      have hre1 : b * 2 ^ l * 2 ^ (N + 52 - l) = b * 2 ^ (l + (N + 52 - l)) := by
        rw [pow_add]; ring
      rw [hre1, hlk, pow_add] at hbr2
      have hre2 : b * (2 ^ N * 2 ^ 52) = 2 ^ 52 * b * 2 ^ N := by ring
      have hre3 : a * 2 ^ N * 2 ^ (N + 52 - l) = a * 2 ^ (N + 52 - l) * 2 ^ N := by
        ring
      rw [hre2, hre3] at hbr2
      exact Nat.le_of_mul_le_mul_right hbr2 (Nat.pos_pow_of_pos _ (by omega))
    have hRpos : 0 < rne (a * 2 ^ (N + 52 - l)) b := by
      by_contra hR0
      have hR : rne (a * 2 ^ (N + 52 - l)) b = 0 := by omega
      rw [hR] at hG2
      simp at hG2
      have hApos : 0 < a * 2 ^ (N + 52 - l) :=
        Nat.mul_pos ha (Nat.pos_pow_of_pos _ (by omega))
      omega
    have hglue1 : 2 * b * rne (a * 2 ^ (N + 52 - l)) b =
        2 * (b * rne (a * 2 ^ (N + 52 - l)) b) := by ring
    have hglue2 : rne (a * 2 ^ (N + 52 - l)) b * b =
        b * rne (a * 2 ^ (N + 52 - l)) b := by ring
    rw [hglue1] at hG1 hG2
    refine ⟨Nat.pos_pow_of_pos _ (by omega), hRpos, ?_, ?_⟩
    · rw [hglue2]
      omega
    · rw [hglue2]
      omega

theorem fl53_bounds (a b : Nat) (ha : 0 < a) (hb : 0 < b) :
    0 < (fl53 a b).2 ∧ 0 < (fl53 a b).1 ∧
    2 ^ 53 * (a * (fl53 a b).2) ≤
      2 ^ 53 * ((fl53 a b).1 * b) + a * (fl53 a b).2 ∧
    2 ^ 53 * ((fl53 a b).1 * b) ≤
      2 ^ 53 * (a * (fl53 a b).2) + a * (fl53 a b).2 := by
  unfold fl53
  rw [if_neg (by omega)]
  apply fl53Core_bounds a b _ _ ha hb
  have hbN : b < 2 ^ (nlog2 b + 1) := nlog2_lt b hb
  have hble : b ≤ a * 2 ^ (nlog2 b + 1) := by
    calc b ≤ 2 ^ (nlog2 b + 1) := Nat.le_of_lt hbN
    _ ≤ a * 2 ^ (nlog2 b + 1) := Nat.le_mul_of_pos_left _ ha
  have hq : 0 < a * 2 ^ (nlog2 b + 1) / b := Nat.div_pos hble hb
  have hlow : 2 ^ nlog2 (a * 2 ^ (nlog2 b + 1) / b) ≤
      a * 2 ^ (nlog2 b + 1) / b := nlog2_le _ hq
  calc b * 2 ^ nlog2 (a * 2 ^ (nlog2 b + 1) / b)
      ≤ b * (a * 2 ^ (nlog2 b + 1) / b) := Nat.mul_le_mul_left b hlow
    _ = a * 2 ^ (nlog2 b + 1) / b * b := by ring
    _ ≤ a * 2 ^ (nlog2 b + 1) := Nat.div_mul_le_self _ _

theorem jsRoundPct_zero (t : Nat) : jsRoundPct 0 t = 0 := by
  have h1 : fl53 0 t = (0, 1) := by
    unfold fl53
    rw [if_pos (Or.inl rfl)]
  have h2 : fl53 0 1 = (0, 1) := by
    unfold fl53
    rw [if_pos (Or.inl rfl)]
  simp only [jsRoundPct, h1]
  norm_num [h2]

/-- The reported percentage is a nearest integer to the exact ratio:
composing the two relative rounding errors (each at most one part in
`2 ^ 53`) with the final half-up rounding keeps the result within half a
unit of `100 * c / t` whenever `t ≤ 2 ^ 43`. -/
theorem jsRoundPct_nearest (c t : Nat) (hct : c ≤ t) (ht : 0 < t)
    (hbig : t ≤ 2 ^ 43) :
    2 * t * jsRoundPct c t ≤ 200 * c + t ∧
    200 * c ≤ 2 * t * jsRoundPct c t + t := by
  by_cases hc : c = 0
  · subst hc
    rw [jsRoundPct_zero]
    omega
  · have hc1 : 0 < c := Nat.pos_of_ne_zero hc
    obtain ⟨hd1, hn1, hL1, hU1⟩ := fl53_bounds c t hc1 ht
    rcases hfl1 : fl53 c t with ⟨n1, d1⟩
    rw [hfl1] at hd1 hn1 hL1 hU1
    simp only at hd1 hn1 hL1 hU1
    obtain ⟨hd2, hn2, hL2, hU2⟩ :=
      fl53_bounds (100 * n1) d1 (by positivity) hd1
    rcases hfl2 : fl53 (100 * n1) d1 with ⟨n2, d2⟩
    rw [hfl2] at hd2 hn2 hL2 hU2
    simp only at hd2 hn2 hL2 hU2
    have hp : jsRoundPct c t = (2 * n2 + d2) / (2 * d2) := by
      simp only [jsRoundPct, hfl1, hfl2]
    rw [hp]
    have h2d2 : 0 < 2 * d2 := by omega
    have hdm := Nat.div_add_mod (2 * n2 + d2) (2 * d2)
    have hmlt := Nat.mod_lt (2 * n2 + d2) h2d2
    set p := (2 * n2 + d2) / (2 * d2) with hpdef
    have hdiv1 : 2 * d2 * p ≤ 2 * n2 + d2 := by omega
    have hdiv2 : 2 * n2 + d2 < 2 * d2 * p + 2 * d2 := by omega
    zify at hL1 hU1 hL2 hU2 hdiv1 hdiv2 hd1 hd2 hn1 hn2 hc1 ht hbig hct ⊢
    set K : ℤ := 2 ^ 53 with hK
    have hEU : K ^ 2 * (n2 * t) ≤ (K + 1) ^ 2 * (100 * (c * d2)) := by
      have s1 : K * (n2 * d1) * (K * t) ≤
          (K * (100 * n1 * d2) + 100 * n1 * d2) * (K * t) :=
        mul_le_mul_of_nonneg_right hU2 (by positivity)
      have s2 : K * (n1 * t) * ((K + 1) * (100 * d2)) ≤
          (K * (c * d1) + c * d1) * ((K + 1) * (100 * d2)) :=
        mul_le_mul_of_nonneg_right hU1 (by positivity)
      have key : K ^ 2 * (n2 * t) * d1 ≤ (K + 1) ^ 2 * (100 * (c * d2)) * d1 := by
        calc K ^ 2 * (n2 * t) * d1
            = K * (n2 * d1) * (K * t) := by ring
          _ ≤ (K * (100 * n1 * d2) + 100 * n1 * d2) * (K * t) := s1
          _ = K * (n1 * t) * ((K + 1) * (100 * d2)) := by ring
          _ ≤ (K * (c * d1) + c * d1) * ((K + 1) * (100 * d2)) := s2
          _ = (K + 1) ^ 2 * (100 * (c * d2)) * d1 := by ring
      exact le_of_mul_le_mul_right key (by exact_mod_cast hd1)
    have hEL : (K - 1) ^ 2 * (100 * (c * d2)) ≤ K ^ 2 * (n2 * t) := by
      have s1 : (K * (100 * n1 * d2) - 100 * n1 * d2) * (K * t) ≤
          K * (n2 * d1) * (K * t) := by
        have h1 : K * (100 * n1 * d2) - 100 * n1 * d2 ≤ K * (n2 * d1) := by
          linarith [hL2]
        exact mul_le_mul_of_nonneg_right h1 (by positivity)
      have s2 : (K * (c * d1) - c * d1) * ((K - 1) * (100 * d2)) ≤
          K * (n1 * t) * ((K - 1) * (100 * d2)) := by
        have h1 : K * (c * d1) - c * d1 ≤ K * (n1 * t) := by linarith [hL1]
        have h2 : (0 : ℤ) ≤ (K - 1) * (100 * d2) := by positivity
        exact mul_le_mul_of_nonneg_right h1 h2
      have key : (K - 1) ^ 2 * (100 * (c * d2)) * d1 ≤ K ^ 2 * (n2 * t) * d1 := by
        calc (K - 1) ^ 2 * (100 * (c * d2)) * d1
            = (K * (c * d1) - c * d1) * ((K - 1) * (100 * d2)) := by ring
          _ ≤ K * (n1 * t) * ((K - 1) * (100 * d2)) := s2
          _ = (K * (100 * n1 * d2) - 100 * n1 * d2) * (K * t) := by ring
          _ ≤ K * (n2 * d1) * (K * t) := s1
          _ = K ^ 2 * (n2 * t) * d1 := by ring
      exact le_of_mul_le_mul_right key (by exact_mod_cast hd1)
    have hstar1 : 2 * K ^ 2 * (t * p) ≤ 200 * (K + 1) ^ 2 * c + K ^ 2 * t := by
      have s1 : 2 * d2 * p * (K ^ 2 * t) ≤ (2 * n2 + d2) * (K ^ 2 * t) :=
        mul_le_mul_of_nonneg_right hdiv1 (by positivity)
      have key : (2 * K ^ 2 * (t * p)) * d2 ≤
          (200 * (K + 1) ^ 2 * c + K ^ 2 * t) * d2 := by
        calc (2 * K ^ 2 * (t * p)) * d2
            = 2 * d2 * p * (K ^ 2 * t) := by ring
          _ ≤ (2 * n2 + d2) * (K ^ 2 * t) := s1
          _ = 2 * (K ^ 2 * (n2 * t)) + K ^ 2 * t * d2 := by ring
          _ ≤ 2 * ((K + 1) ^ 2 * (100 * (c * d2))) + K ^ 2 * t * d2 := by
              linarith [hEU]
          _ = (200 * (K + 1) ^ 2 * c + K ^ 2 * t) * d2 := by ring
      exact le_of_mul_le_mul_right key (by exact_mod_cast hd2)
    have hstar2 : 200 * (K - 1) ^ 2 * c ≤ 2 * K ^ 2 * (t * p) + K ^ 2 * t := by
      have s1 : 2 * n2 * (K ^ 2 * t) ≤ (2 * d2 * p + d2) * (K ^ 2 * t) := by
        have h1 : (2 : ℤ) * n2 ≤ 2 * d2 * p + d2 := by linarith [hdiv2]
        exact mul_le_mul_of_nonneg_right h1 (by positivity)
      have key : (200 * (K - 1) ^ 2 * c) * d2 ≤
          (2 * K ^ 2 * (t * p) + K ^ 2 * t) * d2 := by
        calc (200 * (K - 1) ^ 2 * c) * d2
            = 2 * ((K - 1) ^ 2 * (100 * (c * d2))) := by ring
          _ ≤ 2 * (K ^ 2 * (n2 * t)) := by linarith [hEL]
          _ = 2 * n2 * (K ^ 2 * t) := by ring
          _ ≤ (2 * d2 * p + d2) * (K ^ 2 * t) := s1
          _ = (2 * K ^ 2 * (t * p) + K ^ 2 * t) * d2 := by ring
      exact le_of_mul_le_mul_right key (by exact_mod_cast hd2)
    have hcb : (c : ℤ) ≤ 2 ^ 43 := le_trans hct hbig
    have hKc : 400 * K * c ≤ 400 * K * 2 ^ 43 :=
      mul_le_mul_of_nonneg_left hcb (by positivity)
    have hnum : 400 * K * 2 ^ 43 + 200 * 2 ^ 43 < K ^ 2 := by
      rw [hK]
      norm_num
    constructor
    · have hgoal : 2 * ((t : ℤ) * p) ≤ 200 * c + t := by
        by_contra hcon
        push_neg at hcon
        have h1 : 200 * (c : ℤ) + t + 1 ≤ 2 * (t * p) := hcon
        have h2 : K ^ 2 * (200 * c + t + 1) ≤ K ^ 2 * (2 * (t * p)) :=
          mul_le_mul_of_nonneg_left h1 (by positivity)
        have hK2 : K ^ 2 ≤ 400 * K * c + 200 * c := by linarith [hstar1]
        linarith
      linarith [hgoal]
    · have hgoal : 200 * (c : ℤ) ≤ 2 * (t * p) + t := by
        by_contra hcon
        push_neg at hcon
        have h1 : 2 * ((t : ℤ) * p) + t + 1 ≤ 200 * c := hcon
        have h2 : K ^ 2 * (2 * (t * p) + t + 1) ≤ K ^ 2 * (200 * c) :=
          mul_le_mul_of_nonneg_left h1 (by positivity)
        have hK2 : K ^ 2 ≤ 400 * K * c - 200 * c := by linarith [hstar2]
        linarith
      linarith [hgoal]

/-- The `total > 0 ? Math.round(...) : 0` guard expression satisfies the
`NearestPct` contract whenever `covered ≤ total`. -/
theorem nearestPct_ite (c t : Nat) (hct : c ≤ t) :
    NearestPct t c (if t > 0 then jsRoundPct c t else 0) := by
  constructor
  · intro h0
    rw [if_neg (by omega)]
  · intro hpos hbig
    rw [if_pos hpos]
    exact jsRoundPct_nearest c t hct hpos hbig

/-! ## Supporting lemmas: recommendation ordering -/

namespace GapAnalysis

theorem recLE_iff (a b : GapRecommendation) :
    recLE a b = true ↔ RecOrder a b := by
  unfold recLE RecOrder
  by_cases h : severityRank a.severity = severityRank b.severity
  · rw [if_pos h]
    constructor
    · intro hle
      exact Or.inr ⟨h, of_decide_eq_true hle⟩
    · rintro (hlt | ⟨-, hle⟩)
      · omega
      · exact decide_eq_true hle
  · rw [if_neg h]
    constructor
    · intro hlt
      exact Or.inl (of_decide_eq_true hlt)
    · rintro (hlt | ⟨heq, -⟩)
      · exact decide_eq_true hlt
      · exact absurd heq h

theorem recLE_trans (a b c : GapRecommendation) (hab : recLE a b = true)
    (hbc : recLE b c = true) : recLE a c = true := by
  rw [recLE_iff] at hab hbc ⊢
  unfold RecOrder at hab hbc ⊢
  omega

theorem recLE_total (a b : GapRecommendation) :
    (recLE a b || recLE b a) = true := by
  rw [Bool.or_eq_true, recLE_iff, recLE_iff]
  unfold RecOrder
  omega

theorem assignPriorities_map_rank (i : Nat) (l : List GapRecommendation) :
    (assignPriorities i l).map
        (fun r => (severityRank r.severity, r.affectedCount)) =
      l.map (fun r => (severityRank r.severity, r.affectedCount)) := by
  induction l generalizing i with
  | nil => rfl
  | cons x rest ih => simp [assignPriorities, ih]

theorem assignPriorities_length (i : Nat) (l : List GapRecommendation) :
    (assignPriorities i l).length = l.length := by
  induction l generalizing i with
  | nil => rfl
  | cons x rest ih => simp [assignPriorities, ih]

theorem assignPriorities_map_priority (i : Nat) (l : List GapRecommendation) :
    (assignPriorities i l).map (fun r => r.priority) =
      List.range' (i + 1) l.length := by
  induction l generalizing i with
  | nil => rfl
  | cons x rest ih =>
    show (i + 1) :: (assignPriorities (i + 1) rest).map (fun r => r.priority) =
      (i + 1) :: List.range' (i + 2) rest.length
    rw [ih]

end GapAnalysis

/-! ## Supporting lemmas: completeness tracing -/

namespace Completeness

theorem traceChainGo_missing_le (reqs : List RequirementObject) :
    ∀ (rest : List String) (prev : String) (cur : List String)
      (acc : List String × List String),
      (traceChainGo reqs prev rest cur acc).2.length ≤ acc.2.length + 1 := by
  intro rest
  induction rest with
  | nil => intro prev cur acc; simp [traceChainGo]
  | cons t ts ih =>
    intro prev cur acc
    obtain ⟨actual, missing⟩ := acc
    rw [traceChainGo]
    by_cases h : (frontierTargets reqs cur t).length > 0
    · rw [if_pos h]
      exact ih t _ _
    · rw [if_neg h]
      simp

theorem traceChain_missing_le (reqs : List RequirementObject)
    (startId : String) (expectedChain : List String) :
    (traceChain reqs startId expectedChain).2.length ≤ 1 := by
  unfold traceChain
  cases expectedChain with
  | nil => simp
  | cons c0 rest =>
    have := traceChainGo_missing_le reqs rest c0 [startId]
      ([getTypePrefix startId], [])
    simpa using this

theorem verify_go_mem (reqs : List RequirementObject)
    (expectedChain : List String) (l : List RequirementObject)
    (acc : List IncompleteChain) (c : IncompleteChain)
    (hc : c ∈ l.foldl
      (fun acc startReq =>
        let traced := traceChain reqs startReq.id expectedChain
        if traced.2.length > 0 then
          acc ++ [⟨startReq.id, expectedChain, traced.1, traced.2,
            determineCompletenessSeverity (priorityOf startReq)
              traced.2.length⟩]
        else acc)
      acc) :
    c ∈ acc ∨ ∃ r ∈ l,
      (traceChain reqs r.id expectedChain).2.length > 0 ∧
      c = ⟨r.id, expectedChain, (traceChain reqs r.id expectedChain).1,
        (traceChain reqs r.id expectedChain).2,
        determineCompletenessSeverity (priorityOf r)
          (traceChain reqs r.id expectedChain).2.length⟩ := by
  induction l generalizing acc with
  | nil => exact Or.inl hc
  | cons x rest ih =>
    rw [List.foldl_cons] at hc
    rcases ih _ hc with hmem | ⟨r, hr, hpos, hceq⟩
    · by_cases h : (traceChain reqs x.id expectedChain).2.length > 0
      · rw [if_pos h] at hmem
        rcases List.mem_append.mp hmem with h' | h'
        · exact Or.inl h'
        · rcases List.mem_singleton.mp h' with rfl
          exact Or.inr ⟨x, List.mem_cons_self _ _, h, rfl⟩
      · rw [if_neg h] at hmem
        exact Or.inl hmem
    · exact Or.inr ⟨r, List.mem_cons_of_mem _ hr, hpos, hceq⟩

theorem determineCompletenessSeverity_one (p : String) :
    determineCompletenessSeverity p 1 =
      (if p = "critical" then ValidationSeverity.BLOCKER
       else ValidationSeverity.MEDIUM) := by
  unfold determineCompletenessSeverity
  by_cases h1 : p = "critical"
  · rw [if_pos h1, if_pos h1]
  · rw [if_neg h1, if_neg h1]
    by_cases h2 : p = "high"
    · rw [if_pos h2]
      norm_num
    · rw [if_neg h2]

end Completeness

/-! ## Supporting lemmas: the single-node self-loop SCC -/

theorem removeAllS_eq_self {l : List String} {x : String} (h : x ∉ l) :
    removeAllS l x = l :=
  List.filter_eq_self.mpr (fun y hy => by
    simp only [decide_eq_true_iff]
    exact fun heq => h (heq ▸ hy))

theorem removeAllS_addUnique_self {l : List String} {x : String} (h : x ∉ l) :
    removeAllS (addUnique l x) x = l := by
  unfold addUnique
  rw [if_neg (by rw [includesS_iff]; exact h)]
  unfold removeAllS
  rw [List.filter_append, List.filter_eq_self.mpr, List.filter_cons]
  · rw [if_neg (by simp)]
    simp
  · intro y hy
    simp only [decide_eq_true_iff]
    exact fun heq => h (heq ▸ hy)

theorem not_mem_addUnique {l : List String} {x y : String} (h : y ∉ l)
    (hxy : y ≠ x) : y ∉ addUnique l x := by
  intro hmem
  rcases mem_of_mem_addUnique hmem with h' | h'
  · exact h h'
  · exact hxy h'

theorem alookup_aset_isSome {α : Type} (l : List (String × α)) (k x : String)
    (v : α) (h : (alookup l x).isSome = true) :
    (alookup (aset l k v) x).isSome = true := by
  by_cases hxk : x = k
  · subst hxk
    rw [alookup_aset_self]
    rfl
  · rw [alookup_aset_ne _ _ _ _ hxk]
    exact h

theorem alookup_some_mem {α : Type} (l : List (String × α)) (k : String)
    (v : α) (h : alookup l k = some v) : (k, v) ∈ l := by
  induction l with
  | nil => cases h
  | cons p rest ih =>
    obtain ⟨k', v'⟩ := p
    rw [alookup] at h
    by_cases hk : k' = k
    · rw [if_pos hk] at h
      cases h
      subst hk
      exact List.mem_cons_self _ _
    · rw [if_neg hk] at h
      exact List.mem_cons_of_mem _ (ih h)

namespace CircularDependencyDetector

theorem includesS_addUnique_self (l : List String) (x : String) :
    includesS (addUnique l x) x = true :=
  includesS_iff.mpr (mem_addUnique_self l x)

theorem popUntil_fst_subset (l : List String) (node : String) :
    ∀ x ∈ (popUntil l node).1, x ∈ l := by
  induction l with
  | nil => simp [popUntil]
  | cons w rest ih =>
    intro x hx
    rw [popUntil] at hx
    by_cases h : w = node
    · rw [if_pos h] at hx
      rcases List.mem_singleton.mp hx with rfl
      exact List.mem_cons_self _ _
    · rw [if_neg h] at hx
      simp only at hx
      rcases List.mem_cons.mp hx with rfl | hx'
      · exact List.mem_cons_self _ _
      · exact List.mem_cons_of_mem _ (ih x hx')

theorem popUntil_snd_subset (l : List String) (node : String) :
    ∀ x ∈ (popUntil l node).2, x ∈ l := by
  induction l with
  | nil => simp [popUntil]
  | cons w rest ih =>
    intro x hx
    rw [popUntil] at hx
    by_cases h : w = node
    · rw [if_pos h] at hx
      exact List.mem_cons_of_mem _ hx
    · rw [if_neg h] at hx
      simp only at hx
      exact List.mem_cons_of_mem _ (ih x hx)

theorem mem_foldl_removeAllS (l : List String) (s : List String)
    (x : String) (h : x ∈ l.foldl removeAllS s) : x ∈ s := by
  induction l generalizing s with
  | nil => exact h
  | cons y rest ih =>
    have := ih _ h
    exact (mem_removeAllS.mp this).1

/-- After `buildGraph` (a fold of `Map.set` over the records), a record
whose links agree with every same-id record in the list is looked up to
exactly its own `links`. -/
theorem alookup_buildGraph_aux (r : RequirementObject) :
    ∀ (l : List RequirementObject) (g : List (String × List (String × List String))),
      (r ∈ l ∨ alookup g r.id = some r.links) →
      (∀ r' ∈ l, r'.id = r.id → r'.links = r.links) →
      alookup (l.foldl (fun g r => aset g r.id r.links) g) r.id = some r.links := by
  intro l
  induction l with
  | nil =>
    intro g hd huni
    rcases hd with h | h
    · cases h
    · exact h
  | cons x rest ih =>
    intro g hd huni
    rw [List.foldl_cons]
    by_cases hx : x.id = r.id
    · refine ih _ (Or.inr ?_) (fun r' hr' => huni r' (List.mem_cons_of_mem _ hr'))
      rw [← hx, alookup_aset_self, huni x (List.mem_cons_self _ _) hx]
    · rcases hd with h | h
      · rcases List.mem_cons.mp h with rfl | hmem
        · exact absurd rfl hx
        · exact ih _ (Or.inl hmem)
            (fun r' hr' => huni r' (List.mem_cons_of_mem _ hr'))
      · refine ih _ (Or.inr ?_)
          (fun r' hr' => huni r' (List.mem_cons_of_mem _ hr'))
        rw [alookup_aset_ne _ _ _ _ (fun heq => hx heq.symm)]
        exact h

/-- One `strongConnect` call on a node whose only neighbor is itself:
the node is indexed, its low-link stays its index, and the singleton SCC
is closed immediately, leaving stack and on-stack set untouched. -/
theorem strongConnect_self_loop_step
    (g : List (String × List (String × List String))) (rid : String)
    (st : TarjanState) (fuel : Nat) (hnb : neighborsOf g rid = [rid])
    (honstack : rid ∉ st.onStack) :
    strongConnect g (fuel + 1) rid st =
      { indices := aset st.indices rid st.index,
        lowLinks := aset (aset st.lowLinks rid st.index) rid st.index,
        onStack := st.onStack,
        stack := st.stack,
        index := st.index + 1,
        sccs := st.sccs ++ [[rid]] } := by
  rw [strongConnect, hnb]
  simp only [List.foldl_cons, List.foldl_nil, alookup_aset_self,
    Option.isNone_some, Bool.false_eq_true, if_false,
    includesS_addUnique_self, if_true, Option.getD_some, Nat.min_self,
    if_pos rfl, popUntil, removeAllS_addUnique_self honstack]

theorem indices_isSome_strongConnect
    (g : List (String × List (String × List String))) (x : String) :
    ∀ fuel node st, (alookup st.indices x).isSome = true →
      (alookup (strongConnect g fuel node st).indices x).isSome = true := by
  intro fuel
  induction fuel with
  | zero => intro node st h; exact h
  | succ fuel ih =>
    intro node st h
    rw [strongConnect]
    simp only
    have hfold : ∀ (nbs : List String) (st' : TarjanState),
        (alookup st'.indices x).isSome = true →
        (alookup (nbs.foldl
          (fun st nb =>
            if (alookup st.indices nb).isNone then
              let st := strongConnect g fuel nb st
              let lv := min ((alookup st.lowLinks node).getD 0)
                ((alookup st.lowLinks nb).getD 0)
              { st with lowLinks := aset st.lowLinks node lv }
            else if includesS st.onStack nb then
              let lv := min ((alookup st.lowLinks node).getD 0)
                ((alookup st.indices nb).getD 0)
              { st with lowLinks := aset st.lowLinks node lv }
            else st)
          st').indices x).isSome = true := by
      intro nbs
      induction nbs with
      | nil => intro st' h'; exact h'
      | cons nb rest ihn =>
        intro st' h'
        rw [List.foldl_cons]
        apply ihn
        by_cases h1 : (alookup st'.indices nb).isNone
        · rw [if_pos h1]
          exact ih nb st' h'
        · rw [if_neg h1]
          by_cases h2 : includesS st'.onStack nb
          · rw [if_pos h2]
            exact h'
          · rw [if_neg h2]
            exact h'
    have hst2 := hfold (neighborsOf g node)
      { st with
        indices := aset st.indices node st.index,
        lowLinks := aset st.lowLinks node st.index,
        index := st.index + 1,
        stack := node :: st.stack,
        onStack := addUnique st.onStack node }
      (alookup_aset_isSome _ _ _ _ h)
    set st2 := (neighborsOf g node).foldl _ _ with hst2def
    by_cases hroot : alookup st2.lowLinks node = alookup st2.indices node
    · rw [if_pos hroot]
      exact hst2
    · rw [if_neg hroot]
      exact hst2

/-- `SelfLoopInv` is preserved by any `strongConnect` call on a
not-yet-indexed node, provided the self-loop node has itself as its only
neighbor. -/
theorem selfLoopInv_strongConnect
    (g : List (String × List (String × List String))) (rid : String)
    (hnb : neighborsOf g rid = [rid]) :
    ∀ fuel node st, SelfLoopInv rid st → alookup st.indices node = none →
      SelfLoopInv rid (strongConnect g fuel node st) := by
  intro fuel
  induction fuel with
  | zero => intro node st hinv _; exact hinv
  | succ fuel ih =>
    intro node st hinv hnode
    by_cases hnr : node = rid
    · subst hnr
      rw [strongConnect_self_loop_step g node st fuel hnb hinv.2.1]
      refine ⟨hinv.1, hinv.2.1, Or.inr ⟨?_, ?_⟩⟩
      · rw [alookup_aset_self]
        rfl
      · show (st.sccs ++ [[node]]).filter (fun scc => includesS scc node) =
          [[node]]
        rw [List.filter_append]
        rcases hinv.2.2 with ⟨hidx, hfil⟩ | ⟨hidx, hfil⟩
        · rw [hfil]
          simp [includesS_iff]
        · rw [hnode] at hidx
          cases hidx
    · rw [strongConnect]
      simp only
      have hrne : rid ≠ node := fun h => hnr h.symm
      have hinv1 : SelfLoopInv rid
          { st with
            indices := aset st.indices node st.index,
            lowLinks := aset st.lowLinks node st.index,
            index := st.index + 1,
            stack := node :: st.stack,
            onStack := addUnique st.onStack node } := by
        refine ⟨?_, ?_, ?_⟩
        · intro hmem
          rcases List.mem_cons.mp hmem with h | h
          · exact hrne h
          · exact hinv.1 h
        · exact not_mem_addUnique hinv.2.1 hrne
        · rcases hinv.2.2 with ⟨hidx, hfil⟩ | ⟨hidx, hfil⟩
          · refine Or.inl ⟨?_, hfil⟩
            show alookup (aset st.indices node st.index) rid = none
            rw [alookup_aset_ne _ _ _ _ hrne]
            exact hidx
          · refine Or.inr ⟨?_, hfil⟩
            exact alookup_aset_isSome _ _ _ _ hidx
      have hfold : ∀ (nbs : List String) (st' : TarjanState),
          SelfLoopInv rid st' →
          SelfLoopInv rid (nbs.foldl
            (fun st nb =>
              if (alookup st.indices nb).isNone then
                let st := strongConnect g fuel nb st
                let lv := min ((alookup st.lowLinks node).getD 0)
                  ((alookup st.lowLinks nb).getD 0)
                { st with lowLinks := aset st.lowLinks node lv }
              else if includesS st.onStack nb then
                let lv := min ((alookup st.lowLinks node).getD 0)
                  ((alookup st.indices nb).getD 0)
                { st with lowLinks := aset st.lowLinks node lv }
              else st)
            st') := by
        intro nbs
        induction nbs with
        | nil => intro st' h'; exact h'
        | cons nb rest ihn =>
          intro st' h'
          rw [List.foldl_cons]
          apply ihn
          by_cases h1 : (alookup st'.indices nb).isNone
          · rw [if_pos h1]
            have hrec := ih nb st' h' (Option.isNone_iff_eq_none.mp h1)
            exact ⟨hrec.1, hrec.2.1, hrec.2.2⟩
          · rw [if_neg h1]
            by_cases h2 : includesS st'.onStack nb
            · rw [if_pos h2]
              exact ⟨h'.1, h'.2.1, h'.2.2⟩
            · rw [if_neg h2]
              exact h'
      have hst2inv := hfold (neighborsOf g node)
        { st with
          indices := aset st.indices node st.index,
          lowLinks := aset st.lowLinks node st.index,
          index := st.index + 1,
          stack := node :: st.stack,
          onStack := addUnique st.onStack node }
        hinv1
      set st2 := (neighborsOf g node).foldl _ _ with hst2def
      by_cases hroot : alookup st2.lowLinks node = alookup st2.indices node
      · rw [if_pos hroot]
        show SelfLoopInv rid
          { st2 with
            stack := (popUntil st2.stack node).2,
            onStack := (popUntil st2.stack node).1.foldl removeAllS st2.onStack,
            sccs := st2.sccs ++ [(popUntil st2.stack node).1] }
        have hridstack : rid ∉ (popUntil st2.stack node).2 := fun h =>
          hst2inv.1 (popUntil_snd_subset _ _ _ h)
        have hridscc : rid ∉ (popUntil st2.stack node).1 := fun h =>
          hst2inv.1 (popUntil_fst_subset _ _ _ h)
        have hridon : rid ∉ (popUntil st2.stack node).1.foldl removeAllS
            st2.onStack := fun h =>
          hst2inv.2.1 (mem_foldl_removeAllS _ _ _ h)
        have hfilsingle : ([(popUntil st2.stack node).1]).filter
            (fun scc => includesS scc rid) = [] := by
          rw [List.filter_cons]
          rw [if_neg (by rw [includesS_eq_false_iff.mpr hridscc]; simp)]
          rfl
        refine ⟨hridstack, hridon, ?_⟩
        rcases hst2inv.2.2 with ⟨hidx, hfil⟩ | ⟨hidx, hfil⟩
        · refine Or.inl ⟨hidx, ?_⟩
          show (st2.sccs ++ [(popUntil st2.stack node).1]).filter
            (fun scc => includesS scc rid) = []
          rw [List.filter_append, hfil, hfilsingle]
          rfl
        · refine Or.inr ⟨hidx, ?_⟩
          show (st2.sccs ++ [(popUntil st2.stack node).1]).filter
            (fun scc => includesS scc rid) = [[rid]]
          rw [List.filter_append, hfil, hfilsingle, List.append_nil]
      · rw [if_neg hroot]
        exact hst2inv

theorem topFold_inv (g : List (String × List (String × List String)))
    (rid : String) (hnb : neighborsOf g rid = [rid]) :
    ∀ (l : List (String × List (String × List String))) (st : TarjanState),
      SelfLoopInv rid st →
      SelfLoopInv rid (l.foldl
        (fun st p =>
          if (alookup st.indices p.1).isNone then
            strongConnect g (tarjanFuel g) p.1 st
          else st)
        st) := by
  intro l
  induction l with
  | nil => intro st h; exact h
  | cons p rest ih =>
    intro st h
    rw [List.foldl_cons]
    apply ih
    by_cases h1 : (alookup st.indices p.1).isNone
    · rw [if_pos h1]
      exact selfLoopInv_strongConnect g rid hnb _ _ _ h
        (Option.isNone_iff_eq_none.mp h1)
    · rw [if_neg h1]
      exact h

theorem topFold_indexed (g : List (String × List (String × List String)))
    (rid : String) :
    ∀ (l : List (String × List (String × List String))) (st : TarjanState),
      (alookup st.indices rid).isSome = true →
      (alookup (l.foldl
        (fun st p =>
          if (alookup st.indices p.1).isNone then
            strongConnect g (tarjanFuel g) p.1 st
          else st)
        st).indices rid).isSome = true := by
  intro l
  induction l with
  | nil => intro st h; exact h
  | cons p rest ih =>
    intro st h
    rw [List.foldl_cons]
    apply ih
    by_cases h1 : (alookup st.indices p.1).isNone
    · rw [if_pos h1]
      exact indices_isSome_strongConnect g rid _ _ _ h
    · rw [if_neg h1]
      exact h

/-- By the end of the top-level loop the self-loop node is indexed,
provided its key occurs in the graph. -/
theorem topFold_hits (g : List (String × List (String × List String)))
    (rid : String) (hnb : neighborsOf g rid = [rid]) :
    ∀ (l : List (String × List (String × List String))) (st : TarjanState),
      SelfLoopInv rid st → (∃ p ∈ l, p.1 = rid) →
      (alookup (l.foldl
        (fun st p =>
          if (alookup st.indices p.1).isNone then
            strongConnect g (tarjanFuel g) p.1 st
          else st)
        st).indices rid).isSome = true := by
  intro l
  induction l with
  | nil =>
    rintro st _ ⟨p, hp, -⟩
    cases hp
  | cons q rest ih =>
    rintro st hinv ⟨p, hp, hpid⟩
    rw [List.foldl_cons]
    rcases List.mem_cons.mp hp with rfl | hprest
    · rw [hpid]
      apply topFold_indexed
      by_cases h1 : (alookup st.indices rid).isNone
      · rw [if_pos h1]
        obtain ⟨n, hn⟩ : ∃ n, tarjanFuel g = n + 1 := ⟨_, rfl⟩
        rw [hn, strongConnect_self_loop_step g rid st n hnb hinv.2.1]
        show (alookup (aset st.indices rid st.index) rid).isSome = true
        rw [alookup_aset_self]
        rfl
      · rw [if_neg h1]
        exact Option.isSome_iff_ne_none.mpr
          (fun h => h1 (Option.isNone_iff_eq_none.mpr h))
    · apply ih _ _ ⟨p, hprest, hpid⟩
      by_cases h1 : (alookup st.indices q.1).isNone
      · rw [if_pos h1]
        exact selfLoopInv_strongConnect g rid hnb _ _ _ hinv
          (Option.isNone_iff_eq_none.mp h1)
      · rw [if_neg h1]
        exact hinv

/-- The SCCs of Tarjan on a graph in which `rid` has only its self-loop:
exactly one component contains `rid`, namely the singleton `[rid]`. -/
theorem findSCCs_selfloop (g : List (String × List (String × List String)))
    (rid : String) (hnb : neighborsOf g rid = [rid])
    (hkey : ∃ p ∈ g, p.1 = rid) :
    (findStronglyConnectedComponents g).filter
      (fun scc => includesS scc rid) = [[rid]] := by
  have hinv0 : SelfLoopInv rid ⟨[], [], [], [], 0, []⟩ :=
    ⟨List.not_mem_nil _, List.not_mem_nil _, Or.inl ⟨rfl, rfl⟩⟩
  have hfinal := topFold_inv g rid hnb g ⟨[], [], [], [], 0, []⟩ hinv0
  have hindexed := topFold_hits g rid hnb g ⟨[], [], [], [], 0, []⟩ hinv0 hkey
  unfold findStronglyConnectedComponents
  rcases hfinal.2.2 with ⟨hidx, hfil⟩ | ⟨hidx, hfil⟩
  · rw [hidx] at hindexed
    cases hindexed
  · exact hfil

theorem fcpDfs_path_subset (g : List (String × List (String × List String)))
    (sccSet : List String) (target : String) :
    ∀ fuel node st, node ∈ sccSet → (∀ x ∈ st.path, x ∈ sccSet) →
      ∀ x ∈ (fcpDfs g sccSet target fuel node st).2.path, x ∈ sccSet := by
  intro fuel
  induction fuel with
  | zero => intro node st hnode hpath x hx; exact hpath x hx
  | succ fuel ih =>
    intro node st hnode hpath
    rw [fcpDfs]
    simp only
    have hpath1 : ∀ x ∈ (st.path ++ [node]), x ∈ sccSet := by
      intro x hx
      rcases List.mem_append.mp hx with h | h
      · exact hpath x h
      · rcases List.mem_singleton.mp h with rfl
        exact hnode
    have hfold : ∀ (nbs : List String) (res : Bool × FcpState),
        (∀ x ∈ res.2.path, x ∈ sccSet) →
        ∀ x ∈ (nbs.foldl
          (fun (res : Bool × FcpState) nb =>
            if res.1 then res
            else
              let st := res.2
              if !includesS sccSet nb then (false, st)
              else if nb = target ∧ st.path.length > 1 then
                (true, { st with path := st.path ++ [nb] })
              else if !includesS st.visited nb then
                fcpDfs g sccSet target fuel nb st
              else (false, st))
          res).2.path, x ∈ sccSet := by
      intro nbs
      induction nbs with
      | nil => intro res h; exact h
      | cons nb rest ihn =>
        intro res h
        rw [List.foldl_cons]
        apply ihn
        by_cases h1 : res.1
        · rw [if_pos h1]
          exact h
        · rw [if_neg h1]
          by_cases h2 : !includesS sccSet nb
          · rw [if_pos h2]
            exact h
          · rw [if_neg h2]
            have hnbmem : nb ∈ sccSet := by
              rw [Bool.not_eq_true', Bool.not_eq_false] at h2
              exact includesS_iff.mp h2
            by_cases h3 : nb = target ∧ res.2.path.length > 1
            · rw [if_pos h3]
              intro x hx
              rcases List.mem_append.mp hx with hmem | hmem
              · exact h x hmem
              · rcases List.mem_singleton.mp hmem with rfl
                exact hnbmem
            · rw [if_neg h3]
              by_cases h4 : !includesS res.2.visited nb
              · rw [if_pos h4]
                exact ih nb res.2 hnbmem h
              · rw [if_neg h4]
                exact h
    have hres := hfold (neighborsOf g node)
      (false, { visited := addUnique st.visited node, path := st.path ++ [node] })
      hpath1
    set res := (neighborsOf g node).foldl _
      (false, ({ visited := addUnique st.visited node,
                 path := st.path ++ [node] } : FcpState)) with hresdef
    rcases hbs : res with ⟨b, st2⟩
    rw [hbs] at hres
    cases b
    · intro x hx
      simp only at hx
      exact hres x (List.dropLast_subset _ hx)
    · exact hres

/-- The concrete cycle recovered from an SCC never leaves the SCC. -/
theorem findCyclePath_subset (scc : List String)
    (g : List (String × List (String × List String))) :
    ∀ x ∈ findCyclePath scc g, x ∈ scc := by
  cases scc with
  | nil => intro x hx; cases hx
  | cons s rest =>
    rw [findCyclePath]
    simp only
    have hsub := fcpDfs_path_subset g (s :: rest) s
      ((s :: rest).length + 1) s ⟨[], []⟩ (List.mem_cons_self _ _)
      (by intro x hx; cases hx)
    rcases hfoldeq : fcpDfs g (s :: rest) s ((s :: rest).length + 1) s
      ⟨[], []⟩ with ⟨b, st2⟩
    rw [hfoldeq] at hsub
    by_cases h : st2.path.length > 0
    · rw [if_pos h]
      exact hsub
    · rw [if_neg h]
      intro x hx
      exact hx

theorem detectStep_long (graph : List (String × List (String × List String)))
    (config : DeepValidationConfig) (cycles : List CircularDependency)
    (scc : List String) (h : scc.length > 1) :
    detectStep graph config cycles scc =
      cycles ++ [⟨findCyclePath scc graph, (findCyclePath scc graph).length - 1,
        determineCycleSeverity (findCyclePath scc graph).length config,
        getCycleLinkTypes (findCyclePath scc graph) graph⟩] := by
  unfold detectStep
  rw [if_pos h]

theorem detectStep_singleton
    (graph : List (String × List (String × List String)))
    (config : DeepValidationConfig) (cycles : List CircularDependency)
    (node : String) :
    detectStep graph config cycles [node] =
      match alookup graph node with
      | none => cycles
      | some edges =>
        if edges.any (fun e => includesS e.2 node) then
          cycles ++ [⟨[node, node], 1, .HIGH, edges.map (fun e => e.1)⟩]
        else cycles := rfl

/-- An SCC not containing `rid` contributes no cycle through `rid`. -/
theorem detect_step_skip (graph : List (String × List (String × List String)))
    (config : DeepValidationConfig) (rid : String) (scc : List String)
    (cycles : List CircularDependency) (hscc : rid ∉ scc) :
    (detectStep graph config cycles scc).filter
        (fun c => includesS c.cycle rid) =
      cycles.filter (fun c => includesS c.cycle rid) := by
  by_cases hlen : scc.length > 1
  · rw [detectStep_long graph config cycles scc hlen, List.filter_append]
    have hfree : includesS (findCyclePath scc graph) rid = false :=
      includesS_eq_false_iff.mpr
        (fun h => hscc (findCyclePath_subset _ _ _ h))
    rw [List.filter_cons]
    rw [if_neg (by rw [hfree]; simp)]
    simp
  · cases scc with
    | nil => rfl
    | cons a l =>
      cases l with
      | cons b l2 => exact absurd (by simp) hlen
      | nil =>
        rw [detectStep_singleton]
        cases halk : alookup graph a with
        | none => rfl
        | some edges =>
          show (if edges.any (fun e => includesS e.2 a) then
              cycles ++ [(⟨[a, a], 1, .HIGH, edges.map (fun e => e.1)⟩ :
                CircularDependency)]
            else cycles).filter (fun c => includesS c.cycle rid) =
            cycles.filter (fun c => includesS c.cycle rid)
          by_cases hany : edges.any (fun e => includesS e.2 a)
          · rw [if_pos hany, List.filter_append]
            have hne : includesS [a, a] rid = false := by
              have hra : ¬a = rid := fun h => hscc (by
                rw [h]
                exact List.mem_singleton.mpr rfl)
              simp [includesS, hra]
            rw [List.filter_cons]
            rw [if_neg (by rw [hne]; simp)]
            simp
          · rw [if_neg hany]

theorem detect_fold_skip (graph : List (String × List (String × List String)))
    (config : DeepValidationConfig) (rid : String) :
    ∀ (sccs : List (List String)) (acc : List CircularDependency),
      (∀ scc ∈ sccs, rid ∉ scc) →
      (sccs.foldl (detectStep graph config) acc).filter
          (fun c => includesS c.cycle rid) =
        acc.filter (fun c => includesS c.cycle rid) := by
  intro sccs
  induction sccs with
  | nil => intro acc _; rfl
  | cons scc rest ih =>
    intro acc hfree
    rw [List.foldl_cons]
    rw [ih _ (fun s hs => hfree s (List.mem_cons_of_mem _ hs))]
    exact detect_step_skip graph config rid scc acc
      (hfree scc (List.mem_cons_self _ _))

/-- The detection loop over SCCs among which exactly the singleton `[rid]`
contains `rid`, for a graph whose entry at `rid` is one link-type to `rid`
itself: the cycles through `rid` are the accumulated ones plus the single
emitted self-loop report. -/
theorem detect_fold_single (graph : List (String × List (String × List String)))
    (config : DeepValidationConfig) (rid t : String)
    (halk : alookup graph rid = some [(t, [rid])]) :
    ∀ (sccs : List (List String)) (acc : List CircularDependency),
      (sccs.filter (fun scc => includesS scc rid) = [[rid]]) →
      (sccs.foldl (detectStep graph config) acc).filter
          (fun c => includesS c.cycle rid) =
        acc.filter (fun c => includesS c.cycle rid) ++
          [⟨[rid, rid], 1, .HIGH, [t]⟩] := by
  intro sccs
  induction sccs with
  | nil =>
    intro acc hfil
    cases hfil
  | cons scc rest ih =>
    intro acc hfil
    rw [List.filter_cons] at hfil
    by_cases hmem : includesS scc rid
    · rw [if_pos hmem] at hfil
      obtain ⟨hscc, hrestfil⟩ := List.cons_eq_cons.mp hfil
      subst hscc
      have hrestfree : ∀ s ∈ rest, rid ∉ s := by
        intro s hs hrid
        have : s ∈ rest.filter (fun scc => includesS scc rid) :=
          List.mem_filter.mpr ⟨hs, includesS_iff.mpr hrid⟩
        rw [hrestfil] at this
        cases this
      rw [List.foldl_cons]
      have hstep : detectStep graph config acc [rid] =
          acc ++ [⟨[rid, rid], 1, .HIGH, [t]⟩] := by
        rw [detectStep_singleton, halk]
        show (if ([(t, [rid])] : List (String × List String)).any
            (fun e => includesS e.2 rid) then
            acc ++ [(⟨[rid, rid], 1, .HIGH,
              ([(t, [rid])] : List (String × List String)).map
                (fun e => e.1)⟩ : CircularDependency)]
          else acc) = acc ++ [⟨[rid, rid], 1, .HIGH, [t]⟩]
        rw [if_pos (by simp [includesS])]
        rfl
      rw [hstep]
      rw [detect_fold_skip graph config rid rest _ hrestfree]
      rw [List.filter_append, List.filter_cons]
      rw [if_pos (by simp [includesS])]
      rfl
    · rw [if_neg hmem] at hfil
      rw [List.foldl_cons]
      have hsccfree : rid ∉ scc := by
        intro h
        rw [includesS_iff.mpr h] at hmem
        exact hmem rfl
      rw [ih _ hfil]
      rw [detect_step_skip graph config rid scc acc hsccfree]

end CircularDependencyDetector

/-! ## Claim theorems -/

/-- C1: the claim says a multi-node cycle's severity is classified from the
reported `length` field (which excludes the repeated closing node), so that
the two-record cycle A↔B (reported `length = 2`) gets HIGH severity under
the default configuration. The code instead passes the raw path length —
closing node included — to `determineCycleSeverity`: the 2-cycle is
reported with `length = 2` but classified from 3, yielding MEDIUM, even
though the default table itself maps length 2 to HIGH. This theorem
evaluates the detector at the failing input. -/
theorem C1_two_node_cycle_misclassified :
    CircularDependencyDetector.detectCircularDependencies twoCycleReqs
        DEFAULT_DEEP_VALIDATION_CONFIG =
      [⟨["REQ002", "REQ001", "REQ002"], 2, .MEDIUM, ["links"]⟩] ∧
    CircularDependencyDetector.determineCycleSeverity 2
        DEFAULT_DEEP_VALIDATION_CONFIG = .HIGH := by
  constructor
  · decide
  · decide

/-- C2: in every index reachable from the empty index by Index Builder
mutations (upsert and removal), whenever the record stored at id `a` has
`b` among its outgoing link targets of any link-type, `b` is a member of
`linkGraph(a)` and `a` a member of `linkGraph(b)`. -/
theorem C2_linkGraph_symmetry (ops : List Index.IndexOp) (a b : String)
    (r : RequirementObject)
    (hlook : alookup (Index.applyOps ops).objects a = some r)
    (hmem : b ∈ getAllOutgoingLinks r) :
    b ∈ Index.lgGet (Index.applyOps ops).linkGraph a ∧
      a ∈ Index.lgGet (Index.applyOps ops).linkGraph b :=
  Index.linkSym_foldl_ops ops Index.linkSym_emptyIndex a b r hlook hmem

/-- Witness for C2 at a concrete mutation sequence: after upserting a
record `A` that links to `B`, the hypotheses hold and both `linkGraph`
memberships follow. -/
theorem C2_linkGraph_symmetry_witness :
    alookup (Index.applyOps [.upsertOp sampleLinkedA]).objects "A" =
      some sampleLinkedA ∧
    "B" ∈ getAllOutgoingLinks sampleLinkedA ∧
    ("B" ∈ Index.lgGet
        (Index.applyOps [.upsertOp sampleLinkedA]).linkGraph "A" ∧
      "A" ∈ Index.lgGet
        (Index.applyOps [.upsertOp sampleLinkedA]).linkGraph "B") :=
  ⟨by decide, by decide,
    C2_linkGraph_symmetry [.upsertOp sampleLinkedA] "A" "B" sampleLinkedA
      (by decide) (by decide)⟩

/-- C3 counterexample: cycle detection is not order-independent. The
records A→B, B→{A,C}, C→{B,A} listed as [A,B,C] yield the canonical cycles
{[A,B], [B,C], [A,B,C]}, but the permutation [C,B,A] yields only
{[A,B], [B,C]}: the 3-cycle's closing edge is examined as a cross edge
(target already popped from the recursion stack), so the cycle is missed. -/
theorem C3_order_independence_counterexample :
    List.Perm permReqsCBA permReqsABC ∧
    ["A", "B", "C"] ∈ GraphAnalysis.detectCircularDependencies permReqsABC ∧
    ["A", "B", "C"] ∉ GraphAnalysis.detectCircularDependencies permReqsCBA := by
  refine ⟨by decide, by decide, by decide⟩

/-- C3 amended: within one run, the returned cycles are canonicalized and
deduplicated — no two returned cycles share the canonical
`'->'`-joined key — but the set of canonicalized cycles returned may
depend on the input order (see the counterexample). -/
theorem C3_canonical_cycles_deduplicated (reqs : List RequirementObject) :
    ((GraphAnalysis.detectCircularDependencies reqs).map
      (fun c => String.intercalate "->" c)).Nodup := by
  unfold GraphAnalysis.detectCircularDependencies
  exact GraphAnalysis.dedupCycles_keys_nodup _

/-- C4: in any record set, a record whose only link, of a single
link-type, points to itself (and whose id, if reused, always carries the
same links) is reported with exactly one cycle through its id: the cycle
`[id, id]` of length 1 with severity HIGH, for every configuration (the
self-loop severity is hard-coded). -/
theorem C4_self_loop_single_cycle (reqs : List RequirementObject)
    (r : RequirementObject) (t : String) (config : DeepValidationConfig)
    (hr : r ∈ reqs)
    (huni : ∀ rp ∈ reqs, rp.id = r.id → rp.links = r.links)
    (hlinks : r.links = [(t, [r.id])]) :
    (CircularDependencyDetector.detectCircularDependencies reqs config).filter
        (fun c => includesS c.cycle r.id) =
      [⟨[r.id, r.id], 1, .HIGH, [t]⟩] := by
  have hlook : alookup (buildGraph reqs) r.id = some [(t, [r.id])] := by
    rw [← hlinks]
    exact CircularDependencyDetector.alookup_buildGraph_aux r reqs []
      (Or.inl hr) huni
  have hnb : CircularDependencyDetector.neighborsOf (buildGraph reqs) r.id =
      [r.id] := by
    unfold CircularDependencyDetector.neighborsOf
    rw [hlook]
    rfl
  have hkey : ∃ p ∈ buildGraph reqs, p.1 = r.id :=
    ⟨(r.id, [(t, [r.id])]), alookup_some_mem _ _ _ hlook, rfl⟩
  have hsccs := CircularDependencyDetector.findSCCs_selfloop (buildGraph reqs)
    r.id hnb hkey
  have hmain := CircularDependencyDetector.detect_fold_single (buildGraph reqs)
    config r.id t hlook
    (CircularDependencyDetector.findStronglyConnectedComponents
      (buildGraph reqs))
    [] hsccs
  show ((CircularDependencyDetector.findStronglyConnectedComponents
      (buildGraph reqs)).foldl
      (CircularDependencyDetector.detectStep (buildGraph reqs) config)
      []).filter (fun c => includesS c.cycle r.id) =
    [⟨[r.id, r.id], 1, .HIGH, [t]⟩]
  rw [hmain]
  rfl

/-- C5 counterexample: the claim quantifies over any three records A→B→C,
but when C's type coincides with the source types, C itself is counted as
an uncovered source: with all three records of type `T` the rule
`{implements, [T,T], [T,T], 80}` reports total = 3 (not 2), covered = 2,
percentage = 67 (not 100) and `meets_threshold = false` (not true), with C
in the missing list. -/
theorem C5_three_record_coverage_counterexample :
    Coverage.calculateCoverageForLinkType [chainSameA, chainSameB, chainSameC]
        "implements" [chainSameA.type, chainSameB.type]
        [chainSameB.type, chainSameC.type] 80 =
      ⟨"implements", ["T", "T"], ["T", "T"], 3, 2, 67, 80, false, ["C"]⟩ := by
  decide

/-- C5 amended: the scenario holds provided the three records have pairwise
distinct ids and C's type differs from both source types (so that C is not
itself counted as a source): the rule then reports total = 2, covered = 2,
percentage = 100, `meets_threshold = true` and no missing ids. Moreover a
record counts as covered exactly when it has at least one link of the given
type to an *existing* target whose type is in `targetTypes` — a link to a
nonexistent or wrong-typed target never counts. -/
theorem C5_hierarchical_coverage_amended :
    (∀ (A B C : RequirementObject) (lt : String), A.id ≠ B.id → A.id ≠ C.id →
      B.id ≠ C.id → C.type ≠ A.type → C.type ≠ B.type →
      A.links = [(lt, [B.id])] → B.links = [(lt, [C.id])] → C.links = [] →
      Coverage.calculateCoverageForLinkType [A, B, C] lt [A.type, B.type]
        [B.type, C.type] 80 =
        ⟨lt, [A.type, B.type], [B.type, C.type], 2, 2, 100, 80, true, []⟩) ∧
    (∀ reqs lt toT r, Coverage.hasValidTarget reqs lt toT r = true ↔
      Coverage.ValidTargetP reqs lt toT r) := by
  constructor
  · intro A B C lt hab hac hbc hCa hCb hA hB hC
    have hsrc : [A, B, C].filter (fun r => includesS [A.type, B.type] r.type) =
        [A, B] := by
      have h1 : includesS [A.type, B.type] A.type = true :=
        includesS_iff.mpr (by simp)
      have h2 : includesS [A.type, B.type] B.type = true :=
        includesS_iff.mpr (by simp)
      have h3 : includesS [A.type, B.type] C.type = false :=
        includesS_eq_false_iff.mpr (by simp [hCa, hCb])
      simp [List.filter_cons, h1, h2, h3]
    have hvA : Coverage.hasValidTarget [A, B, C] lt [B.type, C.type] A = true := by
      refine (hasValidTarget_iff _ _ _ _).mpr ⟨B.id, ?_, B, ?_, ?_⟩
      · simp [hA, alookup]
      · simp [getRequirementById, hab]
      · simp
    have hvB : Coverage.hasValidTarget [A, B, C] lt [B.type, C.type] B = true := by
      refine (hasValidTarget_iff _ _ _ _).mpr ⟨C.id, ?_, C, ?_, ?_⟩
      · simp [hB, alookup]
      · simp [getRequirementById, hac, hbc]
      · simp
    have hvC : Coverage.hasValidTarget [A, B, C] lt [B.type, C.type] C = false := by
      simp [Coverage.hasValidTarget, hC, alookup]
    have hpct : jsRoundPct 2 2 = 100 := by decide
    simp [Coverage.calculateCoverageForLinkType, hsrc, List.filter_cons,
      hvA, hvB, hpct]
  · exact hasValidTarget_iff

/-- Witness for C5 at the concrete chain A→B→C with distinct types: the
hypotheses hold and the rule reports 2/2, 100%, threshold met. -/
theorem C5_hierarchical_coverage_amended_witness :
    (chainA.id ≠ chainB.id ∧ chainA.id ≠ chainC.id ∧ chainB.id ≠ chainC.id ∧
      chainC.type ≠ chainA.type ∧ chainC.type ≠ chainB.type ∧
      chainA.links = [("implements", [chainB.id])] ∧
      chainB.links = [("implements", [chainC.id])] ∧ chainC.links = []) ∧
    Coverage.calculateCoverageForLinkType [chainA, chainB, chainC]
        "implements" [chainA.type, chainB.type] [chainB.type, chainC.type]
        80 =
      ⟨"implements", [chainA.type, chainB.type],
        [chainB.type, chainC.type], 2, 2, 100, 80, true, []⟩ :=
  ⟨by decide,
    C5_hierarchical_coverage_amended.1 chainA chainB chainC "implements"
      (by decide) (by decide) (by decide) (by decide) (by decide)
      (by decide) (by decide) (by decide)⟩

/-- C6 counterexample: the claim defines `inDegree` as the record's degree
in the symmetric `linkGraph` (either direction, excluding self). Under that
reading, record A (which links to B) has degree 1, so the claim predicts no
report for A; the code instead counts only records linking *to* A (zero
here) and reports A as `source_only`. -/
theorem C6_orphan_classification_counterexample :
    (Orphans.detectOrphanedRequirements [mockReq "A" ["B"], mockReqNoLinks "B"]
        DEFAULT_DEEP_VALIDATION_CONFIG).map (fun o => (o.id, o.category)) =
      [("A", .source_only), ("B", .dead_end)] ∧
    Orphans.specLinkGraphDegree [mockReq "A" ["B"], mockReqNoLinks "B"] "A" =
      1 := by
  constructor
  · decide
  · decide

/-- C6 amended: the orphan classifier assigns `true_orphan` exactly when
`outDegree = 0` and `incoming = 0`, `dead_end` exactly when `outDegree = 0`
and `incoming > 0`, `source_only` exactly when `outDegree > 0` and
`incoming = 0`, and emits no report otherwise — where `outDegree` counts
the record's outgoing links across all link-types and `incoming` counts
the requirements that link *to* the record (not its degree in the
symmetric `linkGraph`). In particular a record with no links at all and no
incoming links is classified `true_orphan`. -/
theorem C6_orphan_classification_amended (reqs : List RequirementObject)
    (cfg : DeepValidationConfig) :
    (∀ o ∈ Orphans.detectOrphanedRequirements reqs cfg,
      ∃ r ∈ reqs, o.id = r.id ∧
        o.outgoingCount = (getAllOutgoingLinks r).length ∧
        o.incomingCount = (getAllIncomingLinks reqs r.id).length ∧
        Orphans.classify o.outgoingCount o.incomingCount = some o.category) ∧
    (∀ r ∈ reqs, ∀ c,
      Orphans.classify (getAllOutgoingLinks r).length
          (getAllIncomingLinks reqs r.id).length = some c →
      ∃ o ∈ Orphans.detectOrphanedRequirements reqs cfg,
        o.id = r.id ∧ o.category = c) := by
  rw [Orphans.detectOrphaned_eq]
  constructor
  · intro o ho
    obtain ⟨r, hr, he⟩ := List.mem_filterMap.mp ho
    unfold Orphans.orphanEntry at he
    cases hc : Orphans.classify (getAllOutgoingLinks r).length
        (getAllIncomingLinks reqs r.id).length with
    | none => rw [hc] at he; cases he
    | some c =>
      rw [hc] at he
      cases he
      exact ⟨r, hr, rfl, rfl, rfl, hc⟩
  · intro r hr c hc
    refine ⟨⟨r.id, r.type, priorityOf r, c,
      Orphans.determineOrphanSeverity r c cfg,
      (getAllIncomingLinks reqs r.id).length,
      (getAllOutgoingLinks r).length⟩, ?_, rfl, rfl⟩
    exact List.mem_filterMap.mpr ⟨r, hr, by
      unfold Orphans.orphanEntry; rw [hc]⟩

/-- Witness for C6 at a concrete record: `D` with no links at all in a
singleton index is classified `true_orphan`. -/
theorem C6_orphan_classification_amended_witness :
    mockReqNoLinks "D" ∈ [mockReqNoLinks "D"] ∧
    Orphans.classify
        (getAllOutgoingLinks (mockReqNoLinks "D")).length
        (getAllIncomingLinks [mockReqNoLinks "D"] (mockReqNoLinks "D").id).length =
      some .true_orphan ∧
    (∃ o ∈ Orphans.detectOrphanedRequirements [mockReqNoLinks "D"]
        DEFAULT_DEEP_VALIDATION_CONFIG,
      o.id = (mockReqNoLinks "D").id ∧ o.category = .true_orphan) :=
  ⟨by decide, by decide,
    (C6_orphan_classification_amended [mockReqNoLinks "D"]
        DEFAULT_DEEP_VALIDATION_CONFIG).2 (mockReqNoLinks "D") (by decide)
      .true_orphan (by decide)⟩

/-- Witness for C4 at a concrete record set: `REQ001` linking only to
itself via `links`, alone in the index. -/
theorem C4_self_loop_single_cycle_witness :
    mockReq "REQ001" ["REQ001"] ∈ [mockReq "REQ001" ["REQ001"]] ∧
    (∀ rp ∈ [mockReq "REQ001" ["REQ001"]],
      rp.id = (mockReq "REQ001" ["REQ001"]).id →
      rp.links = (mockReq "REQ001" ["REQ001"]).links) ∧
    (mockReq "REQ001" ["REQ001"]).links =
      [("links", [(mockReq "REQ001" ["REQ001"]).id])] ∧
    (CircularDependencyDetector.detectCircularDependencies
        [mockReq "REQ001" ["REQ001"]] DEFAULT_DEEP_VALIDATION_CONFIG).filter
        (fun c => includesS c.cycle (mockReq "REQ001" ["REQ001"]).id) =
      [⟨[(mockReq "REQ001" ["REQ001"]).id, (mockReq "REQ001" ["REQ001"]).id],
        1, .HIGH, ["links"]⟩] :=
  ⟨by decide, by decide, by decide,
    C4_self_loop_single_cycle [mockReq "REQ001" ["REQ001"]]
      (mockReq "REQ001" ["REQ001"]) "links" DEFAULT_DEEP_VALIDATION_CONFIG
      (by decide) (by decide) (by decide)⟩

/-- C7 counterexample: with 23 of 40 records carrying an outgoing link the
exact ratio is 57.5%, and the claim's "covered divided by total, times
100, rounded to the nearest integer" — under `Math.round`'s documented tie
rule, ties toward positive infinity — is 58; but the code computes
`(23/40)*100` in binary64 doubles, where the product falls just below
57.5, and reports 57. -/
theorem C7_percentage_tie_counterexample :
    (GraphAnalysis.calculateCoverage tieReqs).total = 40 ∧
    (GraphAnalysis.calculateCoverage tieReqs).withLinks = 23 ∧
    (GraphAnalysis.calculateCoverage tieReqs).percentage = 57 ∧
    specRoundHalfUpPct 23 40 = 58 :=
  ⟨by decide, by decide, by decide, by decide⟩

/-- C7 amended: every coverage computation — plain coverage, each
hierarchical rule, and each priority-weighted bucket — reports
`percentage = 0` when its candidate population is empty (no division is
attempted), and when `total > 0` an integer within half a unit of
`covered / total × 100`: a nearest integer to the exact ratio, either
neighbour being possible when the exact ratio is an exact half. -/
theorem C7_percentage_safety_amended :
    (∀ reqs : List RequirementObject,
      NearestPct (GraphAnalysis.calculateCoverage reqs).total
        (GraphAnalysis.calculateCoverage reqs).withLinks
        (GraphAnalysis.calculateCoverage reqs).percentage) ∧
    (∀ (reqs : List RequirementObject) (lt : String) (fr toT : List String)
      (th : Nat),
      NearestPct (Coverage.calculateCoverageForLinkType reqs lt fr toT th).total
        (Coverage.calculateCoverageForLinkType reqs lt fr toT th).withLinks
        (Coverage.calculateCoverageForLinkType reqs lt fr toT th).percentage) ∧
    (∀ (reqs : List RequirementObject) (cfg : DeepValidationConfig),
      ∀ e ∈ Completeness.calculatePriorityWeightedCoverage reqs cfg,
      NearestPct e.total e.covered e.percentage) := by
  refine ⟨?_, ?_, ?_⟩
  · intro reqs
    exact nearestPct_ite _ _ (List.length_filter_le _ _)
  · intro reqs lt fr toT th
    exact nearestPct_ite _ _ (List.length_filter_le _ _)
  · intro reqs cfg e he
    obtain ⟨p, hp, he⟩ := List.mem_map.mp he
    subst he
    exact nearestPct_ite _ _ (List.length_filter_le _ _)

/-- Witness for the amended C7: the medium-priority bucket of a one-record
index with one outgoing link reports 1/1 = 100%, satisfying the
nearest-integer contract. -/
theorem C7_percentage_safety_amended_witness :
    (⟨"medium", 1, 1, 100, 85, true, []⟩ :
        Completeness.PriorityWeightedCoverage) ∈
      Completeness.calculatePriorityWeightedCoverage [mockReq "A" ["B"]]
        DEFAULT_DEEP_VALIDATION_CONFIG ∧
    NearestPct 1 1 100 :=
  ⟨by decide,
    C7_percentage_safety_amended.2.2 [mockReq "A" ["B"]]
      DEFAULT_DEEP_VALIDATION_CONFIG ⟨"medium", 1, 1, 100, 85, true, []⟩
      (by decide)⟩

/-- C8: with approved-chain enforcement enabled, an `approved`-status
record whose single link (of any link-type) reaches a `draft`-status
record yields exactly one status inconsistency, of violation kind
`approved_to_draft`, whose chain is `[fromId, toId]` and which carries
both statuses and the traversed link-type. -/
theorem C8_approved_to_draft_inconsistency (A B : RequirementObject)
    (lt : String) (cfg : DeepValidationConfig) (hab : A.id ≠ B.id)
    (hAst : A.status = some "approved") (hBst : B.status = some "draft")
    (hAlinks : A.links = [(lt, [B.id])]) (hBlinks : B.links = [])
    (hcfg : cfg.statusConsistency.enforceApprovedChain = true) :
    StatusConsistency.detectStatusInconsistencies [A, B] cfg =
      [⟨[A.id, B.id], A.id, B.id, "approved", "draft", lt,
        StatusConsistency.determineStatusInconsistencySeverity
          .approved_to_draft (priorityOf A), .approved_to_draft⟩] := by
  have hgetB : getRequirementById [A, B] B.id = some B := by
    simp [getRequirementById, hab]
  have hviol : StatusConsistency.detectStatusViolation "approved" "draft" cfg =
      some .approved_to_draft := by
    unfold StatusConsistency.detectStatusViolation
    have h1 : toLowerS "approved" = "approved" := by decide
    have h2 : toLowerS "draft" = "draft" := by decide
    rw [h1, h2]
    rw [if_pos ⟨hcfg, rfl, rfl⟩]
  simp [StatusConsistency.detectStatusInconsistencies, hAst, hBst, hAlinks,
    hBlinks, StatusConsistency.statusOrDraft, hgetB, hviol]

/-- Witness for C8 at concrete records: approved `A` links to draft `B`
via `satisfies` under the default config (approved-chain enforcement on). -/
theorem C8_approved_to_draft_inconsistency_witness :
    (approvedReq.id ≠ draftReq.id ∧
      approvedReq.status = some "approved" ∧
      draftReq.status = some "draft" ∧
      approvedReq.links = [("satisfies", [draftReq.id])] ∧
      draftReq.links = [] ∧
      DEFAULT_DEEP_VALIDATION_CONFIG.statusConsistency.enforceApprovedChain =
        true) ∧
    StatusConsistency.detectStatusInconsistencies [approvedReq, draftReq]
        DEFAULT_DEEP_VALIDATION_CONFIG =
      [⟨[approvedReq.id, draftReq.id], approvedReq.id, draftReq.id,
        "approved", "draft", "satisfies",
        StatusConsistency.determineStatusInconsistencySeverity
          .approved_to_draft (priorityOf approvedReq), .approved_to_draft⟩] :=
  ⟨by decide,
    C8_approved_to_draft_inconsistency approvedReq draftReq "satisfies"
      DEFAULT_DEEP_VALIDATION_CONFIG (by decide) (by decide) (by decide)
      (by decide) (by decide) (by decide)⟩

/-- C9: for every deep-validation report, the recommendation list is
sorted by severity rank (BLOCKER before HIGH before MEDIUM before LOW
before INFO) with ties broken by descending affected count, and the
`priority` fields are exactly the contiguous 1-based indices of the final
order. -/
theorem C9_recommendations_ranked (report : DeepValidationReport) :
    List.Pairwise GapAnalysis.RecOrder
      (GapAnalysis.generateGapRecommendations report) ∧
    (GapAnalysis.generateGapRecommendations report).map (fun r => r.priority) =
      List.range' 1 (GapAnalysis.generateGapRecommendations report).length := by
  unfold GapAnalysis.generateGapRecommendations
  constructor
  · have hsorted := List.sorted_mergeSort GapAnalysis.recLE_trans
      GapAnalysis.recLE_total (GapAnalysis.collectRecommendations report)
    have hro : List.Pairwise GapAnalysis.RecOrder
        ((GapAnalysis.collectRecommendations report).mergeSort
          GapAnalysis.recLE) :=
      hsorted.imp (fun h => (GapAnalysis.recLE_iff _ _).mp h)
    have hmap : List.Pairwise
        (fun p q : Nat × Nat => p.1 < q.1 ∨ (p.1 = q.1 ∧ q.2 ≤ p.2))
        (((GapAnalysis.collectRecommendations report).mergeSort
            GapAnalysis.recLE).map
          (fun r => (GapAnalysis.severityRank r.severity, r.affectedCount))) :=
      (List.pairwise_map).mpr hro
    rw [← GapAnalysis.assignPriorities_map_rank 0] at hmap
    exact ((List.pairwise_map).mp hmap).imp (fun h => h)
  · rw [GapAnalysis.assignPriorities_map_priority,
      GapAnalysis.assignPriorities_length]

/-- C10: every incomplete chain reported by the completeness tracer has
exactly one entry in `missingLinks` (tracing stops at the first broken
segment), so its severity is BLOCKER when the starting record's priority
is `critical` and MEDIUM in every other case — the `high` priority,
more-than-one-missing-segment HIGH branch is unreachable. -/
theorem C10_incomplete_chain_one_missing (reqs : List RequirementObject)
    (expectedChain : List String) :
    ∀ c ∈ Completeness.verifyHierarchicalCompleteness reqs expectedChain,
      c.missingLinks.length = 1 ∧
      ∃ r ∈ reqs, c.startId = r.id ∧
        c.severity = (if priorityOf r = "critical"
          then ValidationSeverity.BLOCKER else ValidationSeverity.MEDIUM) := by
  intro c hc
  unfold Completeness.verifyHierarchicalCompleteness at hc
  rcases Completeness.verify_go_mem reqs expectedChain _ _ c hc with hmem | hft
  · cases hmem
  · obtain ⟨r, hr, hpos, hceq⟩ := hft
    have hrin : r ∈ reqs := (List.mem_filter.mp hr).1
    have hone : (Completeness.traceChain reqs r.id expectedChain).2.length = 1 := by
      have := Completeness.traceChain_missing_le reqs r.id expectedChain
      omega
    subst hceq
    refine ⟨hone, r, hrin, rfl, ?_⟩
    show Completeness.determineCompletenessSeverity (priorityOf r)
      (Completeness.traceChain reqs r.id expectedChain).2.length = _
    rw [hone, Completeness.determineCompletenessSeverity_one]

/-- Witness for C10: a lone STK-prefixed record with no links yields one
incomplete chain with a single missing segment and MEDIUM severity. -/
theorem C10_incomplete_chain_one_missing_witness :
    (⟨"STK1", ["STK", "SYS"], ["STK"], ["STK→SYS"],
        ValidationSeverity.MEDIUM⟩ : Completeness.IncompleteChain) ∈
      Completeness.verifyHierarchicalCompleteness [stkOnlyReq]
        ["STK", "SYS"] ∧
    ((⟨"STK1", ["STK", "SYS"], ["STK"], ["STK→SYS"],
        ValidationSeverity.MEDIUM⟩ :
          Completeness.IncompleteChain).missingLinks.length = 1 ∧
      ∃ r ∈ [stkOnlyReq],
        (⟨"STK1", ["STK", "SYS"], ["STK"], ["STK→SYS"],
            ValidationSeverity.MEDIUM⟩ :
          Completeness.IncompleteChain).startId = r.id ∧
        (⟨"STK1", ["STK", "SYS"], ["STK"], ["STK→SYS"],
            ValidationSeverity.MEDIUM⟩ :
          Completeness.IncompleteChain).severity =
          (if priorityOf r = "critical" then ValidationSeverity.BLOCKER
           else ValidationSeverity.MEDIUM)) :=
  ⟨by decide,
    C10_incomplete_chain_one_missing [stkOnlyReq] ["STK", "SYS"]
      ⟨"STK1", ["STK", "SYS"], ["STK"], ["STK→SYS"],
        ValidationSeverity.MEDIUM⟩ (by decide)⟩

end Precept
